import Mathlib

/-!
# bsconv: per-read bisulfite retention / conversion counting

A shallow embedding of `bsconv_func` and of the defaults of `main_bsconv`
(`src/bsconv.c`), followed by theorems about it.

Conventions of the embedding

* `uint32_t` values (`rpos`, `qpos`, the loop offset `j`, a CIGAR word) are
  natural numbers, and every addition made in `uint32_t` is reduced modulo
  `2 ^ 32`.
* `int` values (the thresholds, the two flags of the configuration, the
  counters `retn[i]`, `conv[i]`) are integers.  A counter is only ever
  incremented, once per aligned base at most, so it stays far below `2 ^ 31`
  for every record whose sequence length fits the BAM format; signed overflow
  is not modelled.
* The two external collaborators that `bsconv_func` consults are represented
  by the function they compute: the reference window by the upper-cased base
  it returns at a 1-based position (every position the walk asks for is taken
  to lie in the fetched window), the strand resolver by the value it returns
  for the read.
-/

namespace Bsconv

/-! ## Configuration and records -/

/-- The struct `bsconv_conf_t`. -/
structure bsconv_conf_t where
  max_cph : Int
  max_cpa : Int
  max_cpc : Int
  max_cpt : Int
  show_filtered : Int
  print_in_tab : Int
deriving DecidableEq, Repr

/-- The reference window `refcache_t`, seen through its accessor:
`upcased p` is the upper-cased reference base at the 1-based position `p`. -/
structure refcache_t where
  upcased : Nat → Char

/-- An auxiliary field of a record: two-character tag, type character, text. -/
structure aux_t where
  tag : String
  type : Char
  text : String
deriving DecidableEq, Repr

/-- The parts of an alignment record `bam1_t` that `bsconv_func` reads or
writes: `core.flag`, `core.pos` (0-based), the CIGAR words (`core.n_cigar` is
the length of the list), the observed base at each query offset, the query
name and the auxiliary fields. -/
structure bam1_t where
  flag : Nat
  pos : Int
  cigar : List Nat
  seq : Nat → Char
  qname : String
  aux : List aux_t

/-! ## Constants and accessors of the alignment format -/

def BAM_FUNMAP : Nat := 4
def BAM_FSECONDARY : Nat := 256
def BAM_FQCFAIL : Nat := 512
def BAM_FDUP : Nat := 1024
def BAM_FSUPPLEMENTARY : Nat := 2048

def BAM_CMATCH : Nat := 0
def BAM_CINS : Nat := 1
def BAM_CDEL : Nat := 2
def BAM_CSOFT_CLIP : Nat := 4
def BAM_CHARD_CLIP : Nat := 5

/-- The five operation tags that have a `case` of their own in the `switch` of
`bsconv_func`: M, I, D, S and H. -/
def supported_op (op : Nat) : Prop :=
  op = BAM_CMATCH ∨ op = BAM_CINS ∨ op = BAM_CDEL ∨ op = BAM_CSOFT_CLIP ∨ op = BAM_CHARD_CLIP

instance : DecidablePred supported_op := fun op => by
  unfold supported_op
  infer_instance

/-- The operation tag of a CIGAR word: its low four bits. -/
def bam_cigar_op (c : Nat) : Nat := c % 16

/-- The operation length of a CIGAR word: the upper 28 bits of the word. -/
def bam_cigar_oplen (c : Nat) : Nat := (c % 2 ^ 32) / 16

/-- Upper-cased reference base at a 1-based position. -/
def refcache_getbase_upcase (rs : refcache_t) (rpos : Nat) : Char := rs.upcased rpos

/-- Observed base of the read at a 0-based query offset. -/
def bscall (b : bam1_t) (qpos : Nat) : Char := b.seq qpos

/-- The C library function `toupper` on the characters of the C locale. -/
def toupper (c : Char) : Char := c.toUpper

/-- Modelled from the spec: the lookup table `nt256char_to_nt256int8_table`
(declared in `encode.h`; its entries are not given in `bsconv.c`).  The
determining base is mapped directly, A to 0, C to 1, G to 2, T to 3; every
other character is no context class at all and is sent to the fifth slot, 4, of
the five-slot arrays `retn` and `conv`, a slot that is neither filtered on nor
printed. -/
def nt256char_to_nt256int8_table (c : Char) : Nat :=
  if c = 'A' then 0
  else if c = 'C' then 1
  else if c = 'G' then 2
  else if c = 'T' then 3
  else 4

/-- Modelled from the spec: the table `nt256int8_to_nt256char_table`
(declared in `encode.h`), the canonical letter of each context, in the fixed
order A, C, G, T. -/
def nt256int8_to_nt256char_table (i : Nat) : Char :=
  if i = 0 then 'A'
  else if i = 1 then 'C'
  else if i = 2 then 'G'
  else if i = 3 then 'T'
  else 'N'

/-- Modelled from the spec: base complement, A with T and C with G; any other
character is left as it is. -/
def complement (c : Char) : Char :=
  if c = 'A' then 'T'
  else if c = 'T' then 'A'
  else if c = 'C' then 'G'
  else if c = 'G' then 'C'
  else c

/-- Modelled from the spec: `fivenuc_context` (declared in `pileup.h`; its body
is not given in `bsconv.c`).  It fills the five-base window of the informative
base at `rpos`, read on the strand of the cytosine: for a reference `C` these
are the bases at `rpos-2 .. rpos+2`, so that entry 3 is the base at `rpos+1`;
for a reference `G` the window is read on the opposite strand, so that entry 3
is the complement of the base at `rpos-1`.  `bsconv_func` reads entry 3 only. -/
def fivenuc_context (rs : refcache_t) (rpos : Nat) (rb : Char) (i : Nat) : Char :=
  if rb = 'G' then complement (refcache_getbase_upcase rs (rpos + 2 - i))
  else refcache_getbase_upcase rs (rpos + i - 2)

/-! ## The counting walk -/

/-- The two local arrays `retn[5]` and `conv[5]`. -/
structure counts_t where
  retn : Nat → Int
  conv : Nat → Int

/-- Both arrays initialised by `= {0}`. -/
def counts_zero : counts_t := ⟨fun _ => 0, fun _ => 0⟩

/-- The statement `retn[i]++`. -/
def incr_retn (cnt : counts_t) (i : Nat) : counts_t :=
  { cnt with retn := Function.update cnt.retn i (cnt.retn i + 1) }

/-- The statement `conv[i]++`. -/
def incr_conv (cnt : counts_t) (i : Nat) : counts_t :=
  { cnt with conv := Function.update cnt.conv i (cnt.conv i + 1) }

/-- The body of the inner loop of `BAM_CMATCH` (lines 80-98) at the reference
position `p = rpos + j` and the query offset `q = qpos + j`. -/
def count_base (rs : refcache_t) (b : bam1_t) (bsstrand : Nat)
    (cnt : counts_t) (p q : Nat) : counts_t :=
  let rb := refcache_getbase_upcase rs p
  if rb ≠ 'C' ∧ rb ≠ 'G' then cnt
  else if bsstrand ≠ 0 ∧ rb = 'C' then cnt
  else if bsstrand = 0 ∧ rb = 'G' then cnt
  else
    let fivenuc := fivenuc_context rs p rb
    let qb := toupper (bscall b q)
    if bsstrand ≠ 0 ∧ rb = 'G' then
      if qb = 'G' then incr_retn cnt (nt256char_to_nt256int8_table (fivenuc 3))
      else if qb = 'A' then incr_conv cnt (nt256char_to_nt256int8_table (fivenuc 3))
      else cnt
    else if bsstrand = 0 ∧ rb = 'C' then
      if qb = 'C' then incr_retn cnt (nt256char_to_nt256int8_table (fivenuc 3))
      else if qb = 'T' then incr_conv cnt (nt256char_to_nt256int8_table (fivenuc 3))
      else cnt
    else cnt

/-- The loop over the CIGAR words (lines 74-118) with the body of the inner
`BAM_CMATCH` loop left as the parameter `body`: the state `s` is what the body
updates, `rpos` and `qpos` are the two cursors.  The result is `error op` when
the `default` branch is reached (the diagnostic and `abort()`), and otherwise
the final cursors and state. -/
def cigar_loop {σ : Type} (body : σ → Nat → Nat → σ) :
    List Nat → Nat → Nat → σ → Except Nat (Nat × Nat × σ)
  | [], rpos, qpos, s => Except.ok (rpos, qpos, s)
  | c :: rest, rpos, qpos, s =>
    let op := bam_cigar_op c
    let oplen := bam_cigar_oplen c
    if op = BAM_CMATCH then
      cigar_loop body rest ((rpos + oplen) % 2 ^ 32) ((qpos + oplen) % 2 ^ 32)
        ((List.range oplen).foldl
          (fun acc j => body acc ((rpos + j) % 2 ^ 32) ((qpos + j) % 2 ^ 32)) s)
    else if op = BAM_CINS then
      cigar_loop body rest rpos ((qpos + oplen) % 2 ^ 32) s
    else if op = BAM_CDEL then
      cigar_loop body rest ((rpos + oplen) % 2 ^ 32) qpos s
    else if op = BAM_CSOFT_CLIP ∨ op = BAM_CHARD_CLIP then
      cigar_loop body rest rpos ((qpos + oplen) % 2 ^ 32) s
    else Except.error op

/-- The initial value of `rpos`: `c->pos + 1` converted to `uint32_t`. -/
def rpos_init (b : bam1_t) : Nat := ((b.pos + 1) % 2 ^ 32).toNat

/-- Lines 66-118 of `bsconv_func`: the cursors start at `pos + 1` and `0`, the
counters at zero, and the CIGAR loop runs with the counting body. -/
def count_walk (rs : refcache_t) (b : bam1_t) (bsstrand : Nat) :
    Except Nat (Nat × Nat × counts_t) :=
  cigar_loop (count_base rs b bsstrand) b.cigar (rpos_init b) 0 counts_zero

/-- The pairs (reference position, query offset) at which the inner loop body
runs, in order: the same loop with a body that records its two arguments. -/
def aligned_pairs (b : bam1_t) : Except Nat (Nat × Nat × List (Nat × Nat)) :=
  cigar_loop (fun acc p q => acc ++ [(p, q)]) b.cigar (rpos_init b) 0 []

/-! ## The filter -/

/-- Lines 120-128 of `bsconv_func`: the value of `tofilter` when line 129 tests
it. -/
def tofilter (conf : bsconv_conf_t) (cnt : counts_t) : Bool :=
  let t0 := false
  let t1 := if conf.max_cpa ≥ 0 ∧ cnt.retn (nt256char_to_nt256int8_table 'A') > conf.max_cpa
    then true else t0
  let t2 := if conf.max_cpc ≥ 0 ∧ cnt.retn (nt256char_to_nt256int8_table 'C') > conf.max_cpc
    then true else t1
  let t3 := if conf.max_cpt ≥ 0 ∧ cnt.retn (nt256char_to_nt256int8_table 'T') > conf.max_cpt
    then true else t2
  let t4 := if conf.max_cph ≥ 0 ∧
      cnt.retn (nt256char_to_nt256int8_table 'A') +
      cnt.retn (nt256char_to_nt256int8_table 'C') +
      cnt.retn (nt256char_to_nt256int8_table 'T') > conf.max_cph
    then true else t3
  if conf.show_filtered ≠ 0 then !t4 else t4

/-! ## Output and the whole callback -/

/-- The conversion `%d` of `printf` and `ksprintf`. -/
def fmt_d (n : Int) : String := toString n

/-- Lines 133-138: the text written to standard output in tabular mode. -/
def tab_line (cnt : counts_t) (qname : String) : String :=
  let s0 := fmt_d (cnt.retn 0) ++ "\t" ++ fmt_d (cnt.conv 0)
  let s1 := s0 ++ "\t" ++ fmt_d (cnt.retn 1) ++ "\t" ++ fmt_d (cnt.conv 1)
  let s2 := s1 ++ "\t" ++ fmt_d (cnt.retn 2) ++ "\t" ++ fmt_d (cnt.conv 2)
  let s3 := s2 ++ "\t" ++ fmt_d (cnt.retn 3) ++ "\t" ++ fmt_d (cnt.conv 3)
  s3 ++ "\t" ++ qname ++ "\n"

/-- One pass of the loop of lines 144-147: the group `C%c_R%dC%d` of context `i`. -/
def zn_group (cnt : counts_t) (i : Nat) : String :=
  "C" ++ String.singleton (nt256int8_to_nt256char_table i) ++ "_R" ++ fmt_d (cnt.retn i) ++
    "C" ++ fmt_d (cnt.conv i)

/-- Lines 143-147: the text built in the `kstring_t`. -/
def zn_text (cnt : counts_t) : String :=
  zn_group cnt 0 ++ "," ++ zn_group cnt 1 ++ "," ++ zn_group cnt 2 ++ "," ++ zn_group cnt 3

/-- The call `bam_aux_append(b, tag, type, len, data)` for a text field. -/
def bam_aux_append (b : bam1_t) (tag : String) (type : Char) (text : String) : bam1_t :=
  { b with aux := b.aux ++ [⟨tag, type, text⟩] }

/-- One thing handed to the outside by a call of `bsconv_func`: a text printed
on standard output by `printf` and `putchar`, the text form of a record
(`sam_format1`) printed by `puts`, or a record passed to `sam_write1`. -/
inductive output_t where
  | text (s : String)
  | sam_text (b : bam1_t)
  | sam_write (b : bam1_t)

/-- What a call of `bsconv_func` that returns has done: the outputs, in order,
and the record as the call leaves it. -/
structure effects_t where
  outputs : List output_t
  record : bam1_t

/-- The test of lines 58-62: one of the five flags that send the read to
`OUTPUT` at once. -/
def skip_flags (flag : Nat) : Bool :=
  flag &&& BAM_FUNMAP != 0 || flag &&& BAM_FSECONDARY != 0 || flag &&& BAM_FQCFAIL != 0 ||
    flag &&& BAM_FDUP != 0 || flag &&& BAM_FSUPPLEMENTARY != 0

/-- The label `OUTPUT` (lines 151-162): the record goes to `sam_write1` when an
output file is given and is printed as text otherwise.  Both writes are taken
to succeed. -/
def output_record (out : Bool) (b : bam1_t) : effects_t :=
  if out then ⟨[output_t.sam_write b], b⟩ else ⟨[output_t.sam_text b], b⟩

/-- The callback `bsconv_func`.  `bsstrand` is the value returned by
`get_bsstrand` for the read and `out` tells whether the output file is given.
The result is `error op` when the walk reaches `abort()`. -/
def bsconv_func (rs : refcache_t) (conf : bsconv_conf_t) (bsstrand : Nat) (out : Bool)
    (b : bam1_t) : Except Nat effects_t :=
  if skip_flags b.flag then Except.ok (output_record out b)
  else
    match count_walk rs b bsstrand with
    | Except.error op => Except.error op
    | Except.ok (_, _, cnt) =>
      if tofilter conf cnt then Except.ok ⟨[], b⟩
      else if conf.print_in_tab ≠ 0 then
        Except.ok ⟨[output_t.text (tab_line cnt b.qname)], b⟩
      else
        Except.ok (output_record out (bam_aux_append b "ZN" 'Z' (zn_text cnt)))

/-- The configuration of `main_bsconv` before any option is read (lines
185-187): the struct is zeroed, the four thresholds are set to -1 and
`print_in_tab` to 0. -/
def main_bsconv_conf : bsconv_conf_t :=
  { max_cph := -1, max_cpa := -1, max_cpc := -1, max_cpt := -1,
    show_filtered := 0, print_in_tab := 0 }


/-! ## The coordinate map as the specification words it -/

/-- Sum of the lengths of the MatchOrMismatch and Deletion operations before
index `k`. -/
def ref_before (cigar : List Nat) (k : Nat) : Nat :=
  (((cigar.take k).filter
    (fun c => bam_cigar_op c = BAM_CMATCH ∨ bam_cigar_op c = BAM_CDEL)).map bam_cigar_oplen).sum

/-- Sum of the lengths of the MatchOrMismatch, Insertion and Clip (soft or
hard) operations before index `k`. -/
def query_before (cigar : List Nat) (k : Nat) : Nat :=
  (((cigar.take k).filter
    (fun c => bam_cigar_op c = BAM_CMATCH ∨ bam_cigar_op c = BAM_CINS ∨
      bam_cigar_op c = BAM_CSOFT_CLIP ∨ bam_cigar_op c = BAM_CHARD_CLIP)).map
        bam_cigar_oplen).sum

/-- The coordinate map in the words of the specification: for every
MatchOrMismatch operation at index `k` and every offset `j` below its length,
the 1-based reference position `(start0 + 1) + ref_before k + j` paired with
the 0-based query offset `query_before k + j`; operations in the order of the
list, offsets in increasing order. -/
def spec_pairs (start0 : Nat) (cigar : List Nat) : List (Nat × Nat) :=
  (List.range cigar.length).flatMap (fun k =>
    if bam_cigar_op (cigar.getD k 0) = BAM_CMATCH then
      (List.range (bam_cigar_oplen (cigar.getD k 0))).map
        (fun j => ((start0 + 1) + ref_before cigar k + j, query_before cigar k + j))
    else [])

/-! ## Auxiliary definitions for the proofs -/

/-- The pairs of `spec_pairs` with arbitrary starting cursors. -/
def pairs_at (r q : Nat) (cigar : List Nat) : List (Nat × Nat) :=
  (List.range cigar.length).flatMap (fun k =>
    if bam_cigar_op (cigar.getD k 0) = BAM_CMATCH then
      (List.range (bam_cigar_oplen (cigar.getD k 0))).map
        (fun j => (r + ref_before cigar k + j, q + query_before cigar k + j))
    else [])

/-- Reference length consumed by one CIGAR word. -/
def ref_adv (c : Nat) : Nat :=
  if bam_cigar_op c = BAM_CMATCH ∨ bam_cigar_op c = BAM_CDEL then bam_cigar_oplen c else 0

/-- Query length consumed by one CIGAR word. -/
def query_adv (c : Nat) : Nat :=
  if bam_cigar_op c = BAM_CMATCH ∨ bam_cigar_op c = BAM_CINS ∨
      bam_cigar_op c = BAM_CSOFT_CLIP ∨ bam_cigar_op c = BAM_CHARD_CLIP
  then bam_cigar_oplen c else 0

/-- The macro `bam_cigar_gen(l, o)`: the CIGAR word of length `l` and tag `o`. -/
def bam_cigar_gen (l o : Nat) : Nat := l * 16 + o

/-- The read of scenario E: start position 100 (0-based), operations
`[MatchOrMismatch(5), Deletion(2), MatchOrMismatch(3)]`. -/
def scenarioE_read : bam1_t :=
  { flag := 0, pos := 100,
    cigar := [bam_cigar_gen 5 BAM_CMATCH, bam_cigar_gen 2 BAM_CDEL, bam_cigar_gen 3 BAM_CMATCH],
    seq := fun _ => 'A', qname := "E", aux := [] }

/-- The condition under which the loop body, run at the pair `pq`, executes
`retn[i]++`. -/
def retn_hit (rs : refcache_t) (b : bam1_t) (bsstrand i : Nat) (pq : Nat × Nat) : Prop :=
  (bsstrand ≠ 0 ∧ refcache_getbase_upcase rs pq.1 = 'G' ∧ toupper (bscall b pq.2) = 'G' ∧
      nt256char_to_nt256int8_table (complement (refcache_getbase_upcase rs (pq.1 - 1))) = i) ∨
    (bsstrand = 0 ∧ refcache_getbase_upcase rs pq.1 = 'C' ∧ toupper (bscall b pq.2) = 'C' ∧
      nt256char_to_nt256int8_table (refcache_getbase_upcase rs (pq.1 + 1)) = i)

instance (rs : refcache_t) (b : bam1_t) (bsstrand i : Nat) :
    DecidablePred (retn_hit rs b bsstrand i) := fun pq => by
  unfold retn_hit
  infer_instance

/-- The condition under which the loop body, run at the pair `pq`, executes
`conv[i]++`. -/
def conv_hit (rs : refcache_t) (b : bam1_t) (bsstrand i : Nat) (pq : Nat × Nat) : Prop :=
  (bsstrand ≠ 0 ∧ refcache_getbase_upcase rs pq.1 = 'G' ∧ toupper (bscall b pq.2) = 'A' ∧
      nt256char_to_nt256int8_table (complement (refcache_getbase_upcase rs (pq.1 - 1))) = i) ∨
    (bsstrand = 0 ∧ refcache_getbase_upcase rs pq.1 = 'C' ∧ toupper (bscall b pq.2) = 'T' ∧
      nt256char_to_nt256int8_table (refcache_getbase_upcase rs (pq.1 + 1)) = i)

instance (rs : refcache_t) (b : bam1_t) (bsstrand i : Nat) :
    DecidablePred (conv_hit rs b bsstrand i) := fun pq => by
  unfold conv_hit
  infer_instance

/-- The reference of scenarios A and B: `ACGT` at the 1-based positions
101 to 104, `N` elsewhere. -/
def scenario_ref : refcache_t :=
  ⟨fun p => if p = 101 then 'A' else if p = 102 then 'C' else if p = 103 then 'G'
    else if p = 104 then 'T' else 'N'⟩

/-- The read of scenario A: start position 100 (0-based), one operation
`MatchOrMismatch(4)`, observed bases `ATGT` (the `C` of the reference is
observed as `T`). -/
def scenarioA_read : bam1_t :=
  { flag := 0, pos := 100, cigar := [bam_cigar_gen 4 BAM_CMATCH],
    seq := fun q => if q = 0 then 'A' else if q = 1 then 'T' else if q = 2 then 'G' else 'T',
    qname := "A", aux := [] }

/-- The read of scenario B: as scenario A with observed bases `ACGT`. -/
def scenarioB_read : bam1_t :=
  { flag := 0, pos := 100, cigar := [bam_cigar_gen 4 BAM_CMATCH],
    seq := fun q => if q = 0 then 'A' else if q = 1 then 'C' else if q = 2 then 'G' else 'T',
    qname := "B", aux := [] }

/-- A bottom-strand read over the reference of scenario A: start position 100
(0-based), one operation `MatchOrMismatch(4)`, observed bases `ACAT` (the `G`
of the reference is observed as `A`). -/
def bottom_read : bam1_t :=
  { flag := 16, pos := 100, cigar := [bam_cigar_gen 4 BAM_CMATCH],
    seq := fun q => if q = 0 then 'A' else if q = 1 then 'C' else if q = 2 then 'A' else 'T',
    qname := "bottom", aux := [] }

/-! ## The Filter Evaluator as the specification words it -/

/-- The FilterThresholds of the specification: four optional non-negative
integer bounds, `none` for an unset bound. -/
structure FilterThresholds where
  maxCpH : Option Nat
  maxCpA : Option Nat
  maxCpC : Option Nat
  maxCpT : Option Nat
deriving DecidableEq, Repr

/-- A bound of the specification read off a field of the configuration: the
field is a set bound when it is not negative. -/
def bound_of (m : Int) : Option Nat := if m ≥ 0 then some m.toNat else none

/-- The thresholds of the specification read off the configuration. -/
def thresholds_of (conf : bsconv_conf_t) : FilterThresholds :=
  { maxCpH := bound_of conf.max_cph, maxCpA := bound_of conf.max_cpa,
    maxCpC := bound_of conf.max_cpc, maxCpT := bound_of conf.max_cpt }

/-- The retained count of the context of letter `X`. -/
def retained (cnt : counts_t) (X : Char) : Int := cnt.retn (nt256char_to_nt256int8_table X)

/-- The converted count of the context of letter `X`. -/
def converted (cnt : counts_t) (X : Char) : Int := cnt.conv (nt256char_to_nt256int8_table X)

/-- A bound is set and the value is strictly above it. -/
def above (v : Int) (bound : Option Nat) : Bool :=
  match bound with
  | some m => decide (v > (m : Int))
  | none => false

/-- The value `exceeds` of the specification: some set bound is exceeded by its
retained count, the bound maxCpH being compared with the sum over A, C, T. -/
def spec_exceeds (t : FilterThresholds) (cnt : counts_t) : Bool :=
  above (retained cnt 'A') t.maxCpA || above (retained cnt 'C') t.maxCpC ||
    above (retained cnt 'T') t.maxCpT ||
    above (retained cnt 'A' + retained cnt 'C' + retained cnt 'T') t.maxCpH

/-- The decision `shouldSuppress` of the specification: `invertPolarity` XOR
`exceeds`. -/
def spec_shouldSuppress (cnt : counts_t) (t : FilterThresholds) (invertPolarity : Bool) : Bool :=
  Bool.xor invertPolarity (spec_exceeds t cnt)

/-- A read made of one soft clip of length 5, with none of the five flags of
lines 58-62. -/
def clip_read : bam1_t :=
  { flag := 0, pos := 100, cigar := [bam_cigar_gen 5 BAM_CSOFT_CLIP],
    seq := fun _ => 'C', qname := "clip", aux := [] }

/-- The defaults of `main_bsconv` after the option `-v`. -/
def inverted_conf : bsconv_conf_t := { main_bsconv_conf with show_filtered := 1 }

/-- The reference base at `p` belongs to the strand the read is not diagnostic
for: a `C` for a bottom-strand read, a `G` for a top-strand read. -/
def wrong_strand (rs : refcache_t) (bsstrand p : Nat) : Prop :=
  (bsstrand ≠ 0 ∧ refcache_getbase_upcase rs p = 'C') ∨
    (bsstrand = 0 ∧ refcache_getbase_upcase rs p = 'G')

/-- The reference base at `p` is the strand-consistent one: a `G` for a
bottom-strand read, a `C` for a top-strand read. -/
def strand_consistent (rs : refcache_t) (bsstrand p : Nat) : Prop :=
  (bsstrand ≠ 0 ∧ refcache_getbase_upcase rs p = 'G') ∨
    (bsstrand = 0 ∧ refcache_getbase_upcase rs p = 'C')

/-- A read that differs from `scenarioB_read` only in the observed base at
query offset 2, which is aligned to the reference `G` at position 103. -/
def scenarioB_read_alt : bam1_t :=
  { flag := 0, pos := 100, cigar := [bam_cigar_gen 4 BAM_CMATCH],
    seq := fun q => if q = 0 then 'A' else if q = 1 then 'C' else if q = 2 then 'A' else 'T',
    qname := "B", aux := [] }

/-- The context-determining reference base of the strand-consistent position
`p` is none of A, C, G, T: the base at `p + 1` for a top-strand `C`, the base at
`p - 1` for a bottom-strand `G`. -/
def invalid_context (rs : refcache_t) (bsstrand p : Nat) : Prop :=
  (bsstrand = 0 ∧ refcache_getbase_upcase rs p = 'C' ∧
      refcache_getbase_upcase rs (p + 1) ∉ ['A', 'C', 'G', 'T']) ∨
    (bsstrand ≠ 0 ∧ refcache_getbase_upcase rs p = 'G' ∧
      refcache_getbase_upcase rs (p - 1) ∉ ['A', 'C', 'G', 'T'])

instance (rs : refcache_t) (bsstrand : Nat) : DecidablePred (invalid_context rs bsstrand) :=
  fun p => by
    unfold invalid_context
    infer_instance

/-- A reference with an ambiguous base: `CNCG` at the 1-based positions 101 to
104, `N` elsewhere. -/
def ambiguous_ref : refcache_t :=
  ⟨fun p => if p = 101 then 'C' else if p = 102 then 'N' else if p = 103 then 'C'
    else if p = 104 then 'G' else 'N'⟩

/-- A read over `ambiguous_ref`: start position 100 (0-based), one operation
`MatchOrMismatch(4)`, observed bases `CNCG`. -/
def ambiguous_read : bam1_t :=
  { flag := 0, pos := 100, cigar := [bam_cigar_gen 4 BAM_CMATCH],
    seq := fun q => if q = 0 then 'C' else if q = 1 then 'N' else if q = 2 then 'C' else 'G',
    qname := "amb", aux := [] }

/-- A read with an operation of tag 3 (a reference skip), which has no `case`
in the `switch`. -/
def skip_read : bam1_t :=
  { flag := 0, pos := 100,
    cigar := [bam_cigar_gen 2 BAM_CMATCH, bam_cigar_gen 7 3, bam_cigar_gen 2 BAM_CMATCH],
    seq := fun _ => 'C', qname := "skip", aux := [] }

/-- The configuration with the polarity flag `show_filtered` replaced. -/
def with_polarity (conf : bsconv_conf_t) (v : Int) : bsconv_conf_t :=
  { conf with show_filtered := v }

/-- A count table with `retn[A] = 1` and every other counter at zero. -/
def one_retained_A : counts_t := incr_retn counts_zero (nt256char_to_nt256int8_table 'A')

/-- The configuration of scenario C: `maxCpA = 0`, the other thresholds unset,
normal polarity. -/
def scenarioC_conf : bsconv_conf_t := { main_bsconv_conf with max_cpa := 0 }

/-- An unmapped read (flag `BAM_FUNMAP`) without any operation. -/
def unmapped_read : bam1_t :=
  { flag := 4, pos := -1, cigar := [], seq := fun _ => 'N', qname := "u", aux := [] }

/-- A duplicate read (flag `BAM_FDUP`, with the reverse-strand flag) aligned
with `MatchOrMismatch(4)`. -/
def duplicate_read : bam1_t :=
  { flag := 1024 + 16, pos := 100, cigar := [bam_cigar_gen 4 BAM_CMATCH],
    seq := fun _ => 'C', qname := "dup", aux := [] }

/-- The count table of the example of the tag format: retained (3, 0, 10, 1)
and converted (1, 2, 0, 0) for the contexts A, C, G, T. -/
def example_counts : counts_t :=
  { retn := fun i => if i = 0 then 3 else if i = 1 then 0 else if i = 2 then 10
      else if i = 3 then 1 else 0,
    conv := fun i => if i = 0 then 1 else if i = 1 then 2 else 0 }

/-- The tag text in the words of the specification: the four groups
`C<X>_R<retained>C<converted>` for X = A, C, G, T in that order, joined by
commas, the counts in decimal. -/
def spec_zn_text (cnt : counts_t) : String :=
  "CA_R" ++ fmt_d (retained cnt 'A') ++ "C" ++ fmt_d (converted cnt 'A') ++
  ",CC_R" ++ fmt_d (retained cnt 'C') ++ "C" ++ fmt_d (converted cnt 'C') ++
  ",CG_R" ++ fmt_d (retained cnt 'G') ++ "C" ++ fmt_d (converted cnt 'G') ++
  ",CT_R" ++ fmt_d (retained cnt 'T') ++ "C" ++ fmt_d (converted cnt 'T')

/-- The reading of a threshold option in `main_bsconv` (lines 193-196): the
option letter `c` among `m`, `a`, `c`, `t` stores the value `n` returned by
`atoi(optarg)` in its field; `b` and `v` set their flag; `g` leaves the
configuration as it is.  The result is `none` for `h` and for an unknown
letter, where `main_bsconv` ends. -/
def main_bsconv_option (conf : bsconv_conf_t) (c : Char) (n : Int) : Option bsconv_conf_t :=
  if c = 'g' then some conf
  else if c = 'm' then some { conf with max_cph := n }
  else if c = 'a' then some { conf with max_cpa := n }
  else if c = 'c' then some { conf with max_cpc := n }
  else if c = 't' then some { conf with max_cpt := n }
  else if c = 'b' then some { conf with print_in_tab := 1 }
  else if c = 'v' then some { conf with show_filtered := 1 }
  else none

/-- A threshold value `m2` is at least as loose as `m`: it is unset, or both
are set and `m ≤ m2`. -/
def looser (m m2 : Int) : Prop := m2 < 0 ∨ (0 ≤ m ∧ m ≤ m2)

/-- Two threshold values are the same bound: equal, or both negative. -/
def same_bound (m m2 : Int) : Prop := m = m2 ∨ (m < 0 ∧ m2 < 0)

instance (rs : refcache_t) (bsstrand : Nat) : DecidablePred (strand_consistent rs bsstrand) :=
  fun p => by
    unfold strand_consistent
    infer_instance

/-- Sum of the lengths of the MatchOrMismatch operations of the read. -/
def match_len (cigar : List Nat) : Nat :=
  ((cigar.filter (fun c => bam_cigar_op c = BAM_CMATCH)).map bam_cigar_oplen).sum

/-- Sum of the eight counts of the CountTable: retained and converted for the
contexts A, C, G, T. -/
def counts_sum (cnt : counts_t) : Int :=
  retained cnt 'A' + retained cnt 'C' + retained cnt 'G' + retained cnt 'T' +
    (converted cnt 'A' + converted cnt 'C' + converted cnt 'G' + converted cnt 'T')

/-- Sum of all the slots of the two arrays `retn[5]` and `conv[5]`. -/
def slots_sum (cnt : counts_t) : Int :=
  cnt.retn 0 + cnt.retn 1 + cnt.retn 2 + cnt.retn 3 + cnt.retn 4 +
    (cnt.conv 0 + cnt.conv 1 + cnt.conv 2 + cnt.conv 3 + cnt.conv 4)

/-! ## Reading a tabular line back -/

/-- The value of a non-empty string of decimal digits. -/
def parse_nat (ds : List Char) : Option Nat :=
  if ds ≠ [] ∧ ds.all Char.isDigit = true then
    some (ds.foldl (fun a c => 10 * a + (c.toNat - 48)) 0)
  else none

/-- The value of a decimal rendering of an integer: an optional minus sign
followed by digits. -/
def parse_int (ds : List Char) : Option Int :=
  if ds.head? = some '-' then Option.map (fun (k : Nat) => -(k : Int)) (parse_nat ds.tail)
  else Option.map (fun (k : Nat) => (k : Int)) (parse_nat ds)

/-- The fields of a printed line: the text before the first newline, split at
the tab characters. -/
def line_fields (s : String) : List (List Char) :=
  (s.data.takeWhile (fun c => c != '\n')).splitOn '\t'

/-- The reading of a tabular line: nine fields, the first eight of which are
integers in decimal and the ninth the read name. -/
def parse_tab_line (s : String) : Option (List Int × String) :=
  match line_fields s with
  | [f0, f1, f2, f3, f4, f5, f6, f7, name] => do
    let a0 ← parse_int f0
    let a1 ← parse_int f1
    let a2 ← parse_int f2
    let a3 ← parse_int f3
    let a4 ← parse_int f4
    let a5 ← parse_int f5
    let a6 ← parse_int f6
    let a7 ← parse_int f7
    pure ([a0, a1, a2, a3, a4, a5, a6, a7], String.mk name)
  | _ => none

/-- The tabular line in the words of the specification: the four
`retained`, `converted` pairs of the contexts A, C, G, T in that order and then
the read name, nine fields joined by tabs, ended by a newline. -/
def spec_tab_line (cnt : counts_t) (qname : String) : String :=
  String.intercalate "\t"
    [fmt_d (retained cnt 'A'), fmt_d (converted cnt 'A'),
      fmt_d (retained cnt 'C'), fmt_d (converted cnt 'C'),
      fmt_d (retained cnt 'G'), fmt_d (converted cnt 'G'),
      fmt_d (retained cnt 'T'), fmt_d (converted cnt 'T'), qname] ++ "\n"

/-- The defaults of `main_bsconv` after the option `-b`. -/
def tab_conf : bsconv_conf_t := { main_bsconv_conf with print_in_tab := 1 }

/-- A count table with retained (2, 1, 7, 1) for the contexts A, C, G, T. -/
def kept_counts : counts_t :=
  { retn := fun i => if i = 0 then 2 else if i = 1 then 1 else if i = 2 then 7
      else if i = 3 then 1 else 0,
    conv := fun _ => 0 }

/-- A count table with retained (1, 1, 9, 0) for the contexts A, C, G, T. -/
def lower_counts : counts_t :=
  { retn := fun i => if i = 0 then 1 else if i = 1 then 1 else if i = 2 then 9 else 0,
    conv := fun _ => 0 }

/-! # Theorems -/

/-! ## The walk as a fold over the aligned pairs -/

theorem foldl_record_pair (f : Nat → Nat × Nat) (l : List Nat) (acc : List (Nat × Nat)) :
    l.foldl (fun a j => a ++ [f j]) acc = acc ++ l.map f := by
  induction l generalizing acc with
  | nil => simp
  | cons x xs ih => simp [ih]

theorem cigar_loop_record_acc (cigar : List Nat) (rpos qpos : Nat) (acc : List (Nat × Nat)) :
    cigar_loop (fun a p q => a ++ [(p, q)]) cigar rpos qpos acc =
      (cigar_loop (fun a p q => a ++ [(p, q)]) cigar rpos qpos []).map
        (fun r => (r.1, r.2.1, acc ++ r.2.2)) := by
  induction cigar generalizing rpos qpos acc with
  | nil => simp [cigar_loop, Except.map]
  | cons c rest ih =>
    simp only [cigar_loop]
    split_ifs
    · rw [ih, ih _ _ (List.foldl _ [] _)]
      rw [foldl_record_pair (fun j => ((rpos + j) % 2 ^ 32, (qpos + j) % 2 ^ 32)),
        foldl_record_pair (fun j => ((rpos + j) % 2 ^ 32, (qpos + j) % 2 ^ 32))]
      cases cigar_loop (fun a p q => a ++ [(p, q)]) rest _ _ [] <;> simp [Except.map]
    · exact ih _ _ _
    · exact ih _ _ _
    · exact ih _ _ _
    · simp [Except.map]

/-- Whatever the body, the loop returns the cursors of the recording loop and
the fold of the body over the recorded pairs. -/
theorem cigar_loop_eq_fold {σ : Type} (body : σ → Nat → Nat → σ) (cigar : List Nat)
    (rpos qpos : Nat) (s : σ) :
    cigar_loop body cigar rpos qpos s =
      (cigar_loop (fun a p q => a ++ [(p, q)]) cigar rpos qpos []).map
        (fun r => (r.1, r.2.1, r.2.2.foldl (fun a pq => body a pq.1 pq.2) s)) := by
  induction cigar generalizing rpos qpos s with
  | nil => simp [cigar_loop, Except.map]
  | cons c rest ih =>
    simp only [cigar_loop]
    split_ifs
    · rw [ih, foldl_record_pair (fun j => ((rpos + j) % 2 ^ 32, (qpos + j) % 2 ^ 32)),
        cigar_loop_record_acc rest _ _ ([] ++ _)]
      generalize cigar_loop (fun a p q => a ++ [(p, q)]) rest _ _ [] = r
      cases r <;> simp [Except.map, List.foldl_map]
    · exact ih _ _ _
    · exact ih _ _ _
    · exact ih _ _ _
    · simp [Except.map]

/-! ## Supported operation lists -/

theorem cigar_loop_ok_of_supported {σ : Type} (body : σ → Nat → Nat → σ) (cigar : List Nat)
    (h : ∀ c ∈ cigar, supported_op (bam_cigar_op c)) (rpos qpos : Nat) (s : σ) :
    ∃ r, cigar_loop body cigar rpos qpos s = Except.ok r := by
  induction cigar generalizing rpos qpos s with
  | nil => exact ⟨_, rfl⟩
  | cons c rest ih =>
    have hc : supported_op (bam_cigar_op c) := h c (List.mem_cons_self _ _)
    have hr : ∀ c ∈ rest, supported_op (bam_cigar_op c) :=
      fun x hx => h x (List.mem_cons_of_mem _ hx)
    simp only [cigar_loop]
    split_ifs with h1 h2 h3 h4
    · exact ih hr _ _ _
    · exact ih hr _ _ _
    · exact ih hr _ _ _
    · exact ih hr _ _ _
    · exfalso
      rcases hc with hc | hc | hc | hc | hc
      · exact h1 hc
      · exact h2 hc
      · exact h3 hc
      · exact h4 (Or.inl hc)
      · exact h4 (Or.inr hc)

theorem cigar_loop_error_iff {σ : Type} (body : σ → Nat → Nat → σ) (cigar : List Nat)
    (rpos qpos : Nat) (s : σ) :
    (∃ op, cigar_loop body cigar rpos qpos s = Except.error op) ↔
      ∃ c ∈ cigar, ¬ supported_op (bam_cigar_op c) := by
  induction cigar generalizing rpos qpos s with
  | nil => simp [cigar_loop]
  | cons c rest ih =>
    simp only [cigar_loop, List.mem_cons, exists_eq_or_imp]
    split_ifs with h1 h2 h3 h4
    · rw [ih]; simp [supported_op, h1]
    · rw [ih]; simp [supported_op, h2]
    · rw [ih]; simp [supported_op, h3]
    · rw [ih]
      have : supported_op (bam_cigar_op c) := by
        rcases h4 with h4 | h4
        · exact Or.inr (Or.inr (Or.inr (Or.inl h4)))
        · exact Or.inr (Or.inr (Or.inr (Or.inr h4)))
      simp [this]
    · constructor
      · intro _
        left
        intro hs
        rcases hs with hc | hc | hc | hc | hc
        · exact h1 hc
        · exact h2 hc
        · exact h3 hc
        · exact h4 (Or.inl hc)
        · exact h4 (Or.inr hc)
      · intro _
        exact ⟨_, rfl⟩


/-! ## The coordinate map -/

theorem spec_pairs_eq_pairs_at (start0 : Nat) (cigar : List Nat) :
    spec_pairs start0 cigar = pairs_at (start0 + 1) 0 cigar := by
  simp [spec_pairs, pairs_at]

theorem ref_before_zero (cigar : List Nat) : ref_before cigar 0 = 0 := by
  simp [ref_before]

theorem query_before_zero (cigar : List Nat) : query_before cigar 0 = 0 := by
  simp [query_before]

theorem ref_before_cons_succ (c : Nat) (cs : List Nat) (k : Nat) :
    ref_before (c :: cs) (k + 1) = ref_adv c + ref_before cs k := by
  unfold ref_before ref_adv
  by_cases h : bam_cigar_op c = BAM_CMATCH ∨ bam_cigar_op c = BAM_CDEL
  · simp [List.take_succ_cons, List.filter_cons, h]
  · simp [List.take_succ_cons, List.filter_cons, h]

theorem query_before_cons_succ (c : Nat) (cs : List Nat) (k : Nat) :
    query_before (c :: cs) (k + 1) = query_adv c + query_before cs k := by
  unfold query_before query_adv
  by_cases h : bam_cigar_op c = BAM_CMATCH ∨ bam_cigar_op c = BAM_CINS ∨
      bam_cigar_op c = BAM_CSOFT_CLIP ∨ bam_cigar_op c = BAM_CHARD_CLIP
  · simp [List.take_succ_cons, List.filter_cons, h]
  · simp [List.take_succ_cons, List.filter_cons, h]

theorem pairs_at_cons (r q c : Nat) (cs : List Nat) :
    pairs_at r q (c :: cs) =
      (if bam_cigar_op c = BAM_CMATCH then
        (List.range (bam_cigar_oplen c)).map (fun j => (r + j, q + j)) else []) ++
      pairs_at (r + ref_adv c) (q + query_adv c) cs := by
  unfold pairs_at
  rw [List.length_cons, List.range_succ_eq_map, List.flatMap_cons]
  rw [List.flatMap_map]
  simp only [Nat.succ_eq_add_one, List.getD_cons_succ, List.getD_cons_zero, ref_before_cons_succ,
    query_before_cons_succ, ref_before_zero, query_before_zero, Nat.add_assoc, Nat.add_zero,
    List.getD_eq_getElem?_getD, List.getElem?_cons_succ, List.getElem?_cons_zero,
    Option.getD_some]

theorem cigar_loop_match {σ : Type} (body : σ → Nat → Nat → σ) (c : Nat) (rest : List Nat)
    (h : bam_cigar_op c = BAM_CMATCH) (rpos qpos : Nat) (s : σ) :
    cigar_loop body (c :: rest) rpos qpos s =
      cigar_loop body rest ((rpos + bam_cigar_oplen c) % 2 ^ 32)
        ((qpos + bam_cigar_oplen c) % 2 ^ 32)
        ((List.range (bam_cigar_oplen c)).foldl
          (fun acc j => body acc ((rpos + j) % 2 ^ 32) ((qpos + j) % 2 ^ 32)) s) := by
  simp only [cigar_loop, if_pos h]

theorem cigar_loop_ins {σ : Type} (body : σ → Nat → Nat → σ) (c : Nat) (rest : List Nat)
    (h : bam_cigar_op c = BAM_CINS) (rpos qpos : Nat) (s : σ) :
    cigar_loop body (c :: rest) rpos qpos s =
      cigar_loop body rest rpos ((qpos + bam_cigar_oplen c) % 2 ^ 32) s := by
  have h1 : ¬ bam_cigar_op c = BAM_CMATCH := by rw [h]; decide
  simp only [cigar_loop, if_neg h1, if_pos h]

theorem cigar_loop_del {σ : Type} (body : σ → Nat → Nat → σ) (c : Nat) (rest : List Nat)
    (h : bam_cigar_op c = BAM_CDEL) (rpos qpos : Nat) (s : σ) :
    cigar_loop body (c :: rest) rpos qpos s =
      cigar_loop body rest ((rpos + bam_cigar_oplen c) % 2 ^ 32) qpos s := by
  have h1 : ¬ bam_cigar_op c = BAM_CMATCH := by rw [h]; decide
  have h2 : ¬ bam_cigar_op c = BAM_CINS := by rw [h]; decide
  simp only [cigar_loop, if_neg h1, if_neg h2, if_pos h]

theorem cigar_loop_clip {σ : Type} (body : σ → Nat → Nat → σ) (c : Nat) (rest : List Nat)
    (h : bam_cigar_op c = BAM_CSOFT_CLIP ∨ bam_cigar_op c = BAM_CHARD_CLIP)
    (rpos qpos : Nat) (s : σ) :
    cigar_loop body (c :: rest) rpos qpos s =
      cigar_loop body rest rpos ((qpos + bam_cigar_oplen c) % 2 ^ 32) s := by
  have h1 : ¬ bam_cigar_op c = BAM_CMATCH := by rcases h with h | h <;> rw [h] <;> decide
  have h2 : ¬ bam_cigar_op c = BAM_CINS := by rcases h with h | h <;> rw [h] <;> decide
  have h3 : ¬ bam_cigar_op c = BAM_CDEL := by rcases h with h | h <;> rw [h] <;> decide
  simp only [cigar_loop, if_neg h1, if_neg h2, if_neg h3, if_pos h]

theorem map_mod_pairs (r q n : Nat) (hr : r + n ≤ 2 ^ 32) (hq : q + n ≤ 2 ^ 32) :
    (List.range n).map (fun j => ((r + j) % 2 ^ 32, (q + j) % 2 ^ 32)) =
      (List.range n).map (fun j => (r + j, q + j)) := by
  apply List.map_congr_left
  intro j hj
  have hj2 : j < n := List.mem_range.mp hj
  rw [Nat.mod_eq_of_lt (by omega), Nat.mod_eq_of_lt (by omega)]

/-- Without overflow the recording loop returns the cursors and pairs of the
specification. -/
theorem cigar_loop_record_closed (cigar : List Nat)
    (h : ∀ c ∈ cigar, supported_op (bam_cigar_op c)) (r q : Nat)
    (hr : r + ref_before cigar cigar.length < 2 ^ 32)
    (hq : q + query_before cigar cigar.length < 2 ^ 32) :
    cigar_loop (fun a p q => a ++ [(p, q)]) cigar r q [] =
      Except.ok (r + ref_before cigar cigar.length, q + query_before cigar cigar.length,
        pairs_at r q cigar) := by
  induction cigar generalizing r q with
  | nil => simp [cigar_loop, pairs_at, ref_before, query_before]
  | cons c rest ih =>
    have hc : supported_op (bam_cigar_op c) := h c (List.mem_cons_self _ _)
    have hrest : ∀ c ∈ rest, supported_op (bam_cigar_op c) :=
      fun x hx => h x (List.mem_cons_of_mem _ hx)
    rw [List.length_cons, ref_before_cons_succ] at hr
    rw [List.length_cons, query_before_cons_succ] at hq
    rw [List.length_cons, ref_before_cons_succ, query_before_cons_succ, pairs_at_cons]
    have e1 : (r + ref_adv c) % 2 ^ 32 = r + ref_adv c := Nat.mod_eq_of_lt (by omega)
    have e2 : (q + query_adv c) % 2 ^ 32 = q + query_adv c := Nat.mod_eq_of_lt (by omega)
    have ih2 := ih hrest (r + ref_adv c) (q + query_adv c) (by omega) (by omega)
    rcases hc with hc | hc | hc | hc | hc
    · have ra : ref_adv c = bam_cigar_oplen c := by simp [ref_adv, hc]
      have qa : query_adv c = bam_cigar_oplen c := by simp [query_adv, hc]
      rw [ra] at e1 hr ih2 ⊢
      rw [qa] at e2 hq ih2 ⊢
      rw [cigar_loop_match _ _ _ hc, if_pos hc, e1, e2,
        foldl_record_pair (fun j => ((r + j) % 2 ^ 32, (q + j) % 2 ^ 32)),
        cigar_loop_record_acc rest _ _ ([] ++ _), ih2,
        map_mod_pairs r q _ (by omega) (by omega)]
      simp [Except.map, Nat.add_assoc]
    · have hm : ¬ bam_cigar_op c = BAM_CMATCH := by rw [hc]; decide
      have ra : ref_adv c = 0 := by rw [ref_adv, hc]; exact if_neg (by decide)
      have qa : query_adv c = bam_cigar_oplen c := by simp [query_adv, hc]
      rw [ra, Nat.add_zero] at ih2
      rw [ra]
      rw [qa] at e2 ih2 ⊢
      rw [cigar_loop_ins _ _ _ hc, if_neg hm, e2, ih2]
      simp [Nat.add_assoc]
    · have hm : ¬ bam_cigar_op c = BAM_CMATCH := by rw [hc]; decide
      have ra : ref_adv c = bam_cigar_oplen c := by simp [ref_adv, hc]
      have qa : query_adv c = 0 := by rw [query_adv, hc]; exact if_neg (by decide)
      rw [ra] at e1 ih2 ⊢
      rw [qa, Nat.add_zero] at ih2
      rw [qa]
      rw [cigar_loop_del _ _ _ hc, if_neg hm, e1, ih2]
      simp [Nat.add_assoc]
    · have hm : ¬ bam_cigar_op c = BAM_CMATCH := by rw [hc]; decide
      have ra : ref_adv c = 0 := by rw [ref_adv, hc]; exact if_neg (by decide)
      have qa : query_adv c = bam_cigar_oplen c := by simp [query_adv, hc]
      rw [ra, Nat.add_zero] at ih2
      rw [ra]
      rw [qa] at e2 ih2 ⊢
      rw [cigar_loop_clip _ _ _ (Or.inl hc), if_neg hm, e2, ih2]
      simp [Nat.add_assoc]
    · have hm : ¬ bam_cigar_op c = BAM_CMATCH := by rw [hc]; decide
      have ra : ref_adv c = 0 := by rw [ref_adv, hc]; exact if_neg (by decide)
      have qa : query_adv c = bam_cigar_oplen c := by simp [query_adv, hc]
      rw [ra, Nat.add_zero] at ih2
      rw [ra]
      rw [qa] at e2 ih2 ⊢
      rw [cigar_loop_clip _ _ _ (Or.inr hc), if_neg hm, e2, ih2]
      simp [Nat.add_assoc]


/-! ## C1: coordinate map of the walk -/

theorem rpos_init_eq (b : bam1_t) (start0 : Nat) (hpos : b.pos = (start0 : Int))
    (h : start0 + 1 < 2 ^ 32) : rpos_init b = start0 + 1 := by
  unfold rpos_init
  rw [hpos]
  omega

/-- C1: for a read at the 0-based start `start0` whose operations are all among
M, I, D, S, H and whose cursors do not overflow 32 bits, the inner loop body of
`bsconv_func` runs exactly at the pairs of `spec_pairs`: for the M operation at
index `k` and offset `j`, reference position `(start0 + 1) + ref_before k + j`
and query offset `query_before k + j`; the counting walk is the fold of the
loop body over these pairs.  For `[M 5, D 2, M 3]` the reference cursor ends at
`(start0 + 1) + 10`, the query cursor at 8, and the last pair is query offset 7
with reference position `(start0 + 1) + 9`. -/
theorem C1_coordinate_map (b : bam1_t) (start0 : Nat)
    (hpos : b.pos = (start0 : Int))
    (hsup : ∀ c ∈ b.cigar, supported_op (bam_cigar_op c))
    (href : (start0 + 1) + ref_before b.cigar b.cigar.length < 2 ^ 32)
    (hqry : query_before b.cigar b.cigar.length < 2 ^ 32) :
    aligned_pairs b =
        Except.ok ((start0 + 1) + ref_before b.cigar b.cigar.length,
          query_before b.cigar b.cigar.length, spec_pairs start0 b.cigar) ∧
      (∀ (rs : refcache_t) (bsstrand : Nat),
        count_walk rs b bsstrand =
          Except.ok ((start0 + 1) + ref_before b.cigar b.cigar.length,
            query_before b.cigar b.cigar.length,
            (spec_pairs start0 b.cigar).foldl
              (fun cnt pq => count_base rs b bsstrand cnt pq.1 pq.2) counts_zero)) ∧
      (b.cigar = [bam_cigar_gen 5 BAM_CMATCH, bam_cigar_gen 2 BAM_CDEL,
            bam_cigar_gen 3 BAM_CMATCH] →
        ∃ l, aligned_pairs b = Except.ok ((start0 + 1) + 10, 8, l) ∧
          l.getLast? = some ((start0 + 1) + 9, 7)) := by
  have hr0 : rpos_init b = start0 + 1 := rpos_init_eq b start0 hpos (by omega)
  have hmain : aligned_pairs b =
      Except.ok ((start0 + 1) + ref_before b.cigar b.cigar.length,
        query_before b.cigar b.cigar.length, spec_pairs start0 b.cigar) := by
    unfold aligned_pairs
    rw [hr0, cigar_loop_record_closed b.cigar hsup (start0 + 1) 0 href (by omega),
      spec_pairs_eq_pairs_at]
    simp
  refine ⟨hmain, ?_, ?_⟩
  · intro rs bsstrand
    unfold count_walk
    rw [cigar_loop_eq_fold]
    unfold aligned_pairs at hmain
    rw [hmain]
    rfl
  · intro hc
    have e1 : ref_before b.cigar b.cigar.length = 10 := by rw [hc]; decide
    have e2 : query_before b.cigar b.cigar.length = 8 := by rw [hc]; decide
    rw [e1, e2] at hmain
    refine ⟨_, hmain, ?_⟩
    rw [hc]
    simp [spec_pairs, ref_before, query_before, bam_cigar_gen, bam_cigar_op, bam_cigar_oplen,
      BAM_CMATCH, BAM_CDEL, BAM_CINS, BAM_CSOFT_CLIP, BAM_CHARD_CLIP, List.range_succ]

/-- Witness of C1 on the read of scenario E. -/
theorem C1_coordinate_map_witness :
    aligned_pairs scenarioE_read = Except.ok (111, 8, spec_pairs 100 scenarioE_read.cigar) ∧
      spec_pairs 100 scenarioE_read.cigar =
        [(101, 0), (102, 1), (103, 2), (104, 3), (105, 4), (108, 5), (109, 6), (110, 7)] :=
  ⟨(C1_coordinate_map scenarioE_read 100 rfl (by decide) (by decide) (by decide)).1, by decide⟩


/-! ## What one run of the loop body does to the counters -/

theorem fivenuc_context_three_C (rs : refcache_t) (p : Nat) :
    fivenuc_context rs p 'C' 3 = refcache_getbase_upcase rs (p + 1) := by
  simp [fivenuc_context]

theorem fivenuc_context_three_G (rs : refcache_t) (p : Nat) :
    fivenuc_context rs p 'G' 3 = complement (refcache_getbase_upcase rs (p - 1)) := by
  simp [fivenuc_context]

theorem count_base_retn (rs : refcache_t) (b : bam1_t) (bsstrand : Nat) (cnt : counts_t)
    (p q i : Nat) :
    (count_base rs b bsstrand cnt p q).retn i =
      cnt.retn i + if retn_hit rs b bsstrand i (p, q) then 1 else 0 := by
  unfold count_base retn_hit
  by_cases hs : bsstrand = 0
  · by_cases hC : refcache_getbase_upcase rs p = 'C'
    · by_cases hq : toupper (bscall b q) = 'C'
      · by_cases hi : nt256char_to_nt256int8_table (refcache_getbase_upcase rs (p + 1)) = i
        · simp [hs, hC, hq, hi, incr_retn, fivenuc_context_three_C]
        · simp [hs, hC, hq, hi, incr_retn, fivenuc_context_three_C, Function.update]
          intro h; exact absurd h.symm hi
      · by_cases hq2 : toupper (bscall b q) = 'T'
        · simp [hs, hC, hq, hq2, incr_conv]
        · simp [hs, hC, hq, hq2]
    · by_cases hG : refcache_getbase_upcase rs p = 'G'
      · simp [hs, hC, hG]
      · simp [hs, hC, hG]
  · by_cases hG : refcache_getbase_upcase rs p = 'G'
    · by_cases hq : toupper (bscall b q) = 'G'
      · by_cases hi : nt256char_to_nt256int8_table
            (complement (refcache_getbase_upcase rs (p - 1))) = i
        · simp [hs, hG, hq, hi, incr_retn, fivenuc_context_three_G]
        · simp [hs, hG, hq, hi, incr_retn, fivenuc_context_three_G, Function.update]
          intro h; exact absurd h.symm hi
      · by_cases hq2 : toupper (bscall b q) = 'A'
        · simp [hs, hG, hq, hq2, incr_conv]
        · simp [hs, hG, hq, hq2]
    · by_cases hC : refcache_getbase_upcase rs p = 'C'
      · simp [hs, hC, hG]
      · simp [hs, hC, hG]

theorem count_base_conv (rs : refcache_t) (b : bam1_t) (bsstrand : Nat) (cnt : counts_t)
    (p q i : Nat) :
    (count_base rs b bsstrand cnt p q).conv i =
      cnt.conv i + if conv_hit rs b bsstrand i (p, q) then 1 else 0 := by
  unfold count_base conv_hit
  by_cases hs : bsstrand = 0
  · by_cases hC : refcache_getbase_upcase rs p = 'C'
    · by_cases hq : toupper (bscall b q) = 'C'
      · simp [hs, hC, hq, incr_retn]
      · by_cases hq2 : toupper (bscall b q) = 'T'
        · by_cases hi : nt256char_to_nt256int8_table (refcache_getbase_upcase rs (p + 1)) = i
          · simp [hs, hC, hq2, hi, incr_conv, fivenuc_context_three_C]
          · simp [hs, hC, hq2, hi, incr_conv, fivenuc_context_three_C, Function.update]
            intro h; exact absurd h.symm hi
        · simp [hs, hC, hq, hq2]
    · by_cases hG : refcache_getbase_upcase rs p = 'G'
      · simp [hs, hC, hG]
      · simp [hs, hC, hG]
  · by_cases hG : refcache_getbase_upcase rs p = 'G'
    · by_cases hq : toupper (bscall b q) = 'G'
      · simp [hs, hG, hq, incr_retn]
      · by_cases hq2 : toupper (bscall b q) = 'A'
        · by_cases hi : nt256char_to_nt256int8_table
              (complement (refcache_getbase_upcase rs (p - 1))) = i
          · simp [hs, hG, hq2, hi, incr_conv, fivenuc_context_three_G]
          · simp [hs, hG, hq2, hi, incr_conv, fivenuc_context_three_G, Function.update]
            intro h; exact absurd h.symm hi
        · simp [hs, hG, hq, hq2]
    · by_cases hC : refcache_getbase_upcase rs p = 'C'
      · simp [hs, hC, hG]
      · simp [hs, hC, hG]

theorem foldl_count_base_retn (rs : refcache_t) (b : bam1_t) (bsstrand i : Nat)
    (l : List (Nat × Nat)) (cnt : counts_t) :
    (l.foldl (fun c pq => count_base rs b bsstrand c pq.1 pq.2) cnt).retn i =
      cnt.retn i + (l.countP (fun pq => decide (retn_hit rs b bsstrand i pq)) : Nat) := by
  induction l generalizing cnt with
  | nil => simp
  | cons x xs ih =>
    rw [List.foldl_cons, ih, count_base_retn, List.countP_cons]
    by_cases h : retn_hit rs b bsstrand i x
    · have h2 : retn_hit rs b bsstrand i (x.1, x.2) := h
      simp [h, h2]; ring
    · have h2 : ¬ retn_hit rs b bsstrand i (x.1, x.2) := h
      simp [h, h2]

theorem foldl_count_base_conv (rs : refcache_t) (b : bam1_t) (bsstrand i : Nat)
    (l : List (Nat × Nat)) (cnt : counts_t) :
    (l.foldl (fun c pq => count_base rs b bsstrand c pq.1 pq.2) cnt).conv i =
      cnt.conv i + (l.countP (fun pq => decide (conv_hit rs b bsstrand i pq)) : Nat) := by
  induction l generalizing cnt with
  | nil => simp
  | cons x xs ih =>
    rw [List.foldl_cons, ih, count_base_conv, List.countP_cons]
    by_cases h : conv_hit rs b bsstrand i x
    · have h2 : conv_hit rs b bsstrand i (x.1, x.2) := h
      simp [h, h2]; ring
    · have h2 : ¬ conv_hit rs b bsstrand i (x.1, x.2) := h
      simp [h, h2]

theorem table_eq_iff (c X : Char) (hX : X ∈ ['A', 'C', 'G', 'T']) :
    nt256char_to_nt256int8_table c = nt256char_to_nt256int8_table X ↔ c = X := by
  constructor
  · intro h
    simp only [List.mem_cons, List.mem_singleton, List.not_mem_nil, or_false] at hX
    unfold nt256char_to_nt256int8_table at h
    rcases hX with rfl | rfl | rfl | rfl <;> simp at h <;> split_ifs at h <;> simp_all
  · intro h; rw [h]

/-- The walk of a supported operation list returns, and its counters are the
fold of the loop body over the recorded pairs. -/
theorem count_walk_supported (rs : refcache_t) (b : bam1_t) (bsstrand : Nat)
    (hsup : ∀ c ∈ b.cigar, supported_op (bam_cigar_op c)) :
    ∃ rpos qpos pairs, aligned_pairs b = Except.ok (rpos, qpos, pairs) ∧
      count_walk rs b bsstrand = Except.ok (rpos, qpos,
        pairs.foldl (fun c pq => count_base rs b bsstrand c pq.1 pq.2) counts_zero) := by
  obtain ⟨⟨rpos, qpos, pairs⟩, hr⟩ :=
    cigar_loop_ok_of_supported (fun a p q => a ++ [(p, q)]) b.cigar hsup (rpos_init b) 0 []
  refine ⟨rpos, qpos, pairs, hr, ?_⟩
  unfold count_walk
  rw [cigar_loop_eq_fold, hr]
  rfl


/-! ## C2, C3: what is counted on each strand -/

/-- C2: on the top strand (`bsstrand = 0`) with a supported operation list the
walk returns, and for every context letter `X` among A, C, G, T the counter
`retn[X]` is the number of aligned pairs `(p, q)` whose reference base at `p`
is `C`, whose reference base at `p + 1` is `X` and whose upper-cased observed
base at `q` is `C`, while `conv[X]` is the number of those observed as `T`; a
pair observed as anything else leaves the counters as they are.  In scenario A
(reference `ACGT`, the `C` observed as `T`) `conv[G] = 1` and `retn[G] = 0`; in
scenario B (the `C` observed as `C`) `retn[G] = 1` and `conv[G] = 0`. -/
theorem C2_top_strand_counts (rs : refcache_t) (b : bam1_t)
    (hsup : ∀ c ∈ b.cigar, supported_op (bam_cigar_op c)) :
    (∃ rpos qpos cnt pairs,
      count_walk rs b 0 = Except.ok (rpos, qpos, cnt) ∧
      aligned_pairs b = Except.ok (rpos, qpos, pairs) ∧
      ∀ X ∈ ['A', 'C', 'G', 'T'],
        cnt.retn (nt256char_to_nt256int8_table X) =
          (pairs.countP (fun pq => decide (refcache_getbase_upcase rs pq.1 = 'C' ∧
            refcache_getbase_upcase rs (pq.1 + 1) = X ∧ toupper (bscall b pq.2) = 'C')) : Nat) ∧
        cnt.conv (nt256char_to_nt256int8_table X) =
          (pairs.countP (fun pq => decide (refcache_getbase_upcase rs pq.1 = 'C' ∧
            refcache_getbase_upcase rs (pq.1 + 1) = X ∧ toupper (bscall b pq.2) = 'T')) : Nat)) ∧
      (∀ (cnt : counts_t) (p q : Nat), toupper (bscall b q) ≠ 'C' → toupper (bscall b q) ≠ 'T' →
        count_base rs b 0 cnt p q = cnt) ∧
      (∃ rpos qpos cnt, count_walk scenario_ref scenarioA_read 0 = Except.ok (rpos, qpos, cnt) ∧
        cnt.conv (nt256char_to_nt256int8_table 'G') = 1 ∧
        cnt.retn (nt256char_to_nt256int8_table 'G') = 0) ∧
      (∃ rpos qpos cnt, count_walk scenario_ref scenarioB_read 0 = Except.ok (rpos, qpos, cnt) ∧
        cnt.retn (nt256char_to_nt256int8_table 'G') = 1 ∧
        cnt.conv (nt256char_to_nt256int8_table 'G') = 0) := by
  refine ⟨?_, ?_, ⟨_, _, _, rfl, by decide, by decide⟩, ⟨_, _, _, rfl, by decide, by decide⟩⟩
  · obtain ⟨rpos, qpos, pairs, hp, hw⟩ := count_walk_supported rs b 0 hsup
    refine ⟨rpos, qpos, _, pairs, hw, hp, ?_⟩
    intro X hX
    rw [foldl_count_base_retn, foldl_count_base_conv]
    simp only [counts_zero, zero_add, Nat.cast_inj]
    constructor
    · apply List.countP_congr
      intro pq _
      simp only [retn_hit, table_eq_iff _ X hX, decide_eq_true_eq]
      tauto
    · apply List.countP_congr
      intro pq _
      simp only [conv_hit, table_eq_iff _ X hX, decide_eq_true_eq]
      tauto
  · intro cnt p q h1 h2
    unfold count_base
    simp [h1, h2]

/-- Witness of C2 on the read of scenario A. -/
theorem C2_top_strand_counts_witness :
    (∀ c ∈ scenarioA_read.cigar, supported_op (bam_cigar_op c)) ∧
      ∃ rpos qpos cnt pairs,
        count_walk scenario_ref scenarioA_read 0 = Except.ok (rpos, qpos, cnt) ∧
        aligned_pairs scenarioA_read = Except.ok (rpos, qpos, pairs) ∧
        ∀ X ∈ ['A', 'C', 'G', 'T'],
          cnt.retn (nt256char_to_nt256int8_table X) =
            (pairs.countP (fun pq => decide (refcache_getbase_upcase scenario_ref pq.1 = 'C' ∧
              refcache_getbase_upcase scenario_ref (pq.1 + 1) = X ∧
              toupper (bscall scenarioA_read pq.2) = 'C')) : Nat) ∧
          cnt.conv (nt256char_to_nt256int8_table X) =
            (pairs.countP (fun pq => decide (refcache_getbase_upcase scenario_ref pq.1 = 'C' ∧
              refcache_getbase_upcase scenario_ref (pq.1 + 1) = X ∧
              toupper (bscall scenarioA_read pq.2) = 'T')) : Nat) :=
  ⟨by decide, (C2_top_strand_counts scenario_ref scenarioA_read (by decide)).1⟩


/-- C3: on the bottom strand (`bsstrand ≠ 0`) with a supported operation list
the walk returns, and for every context letter `X` among A, C, G, T the counter
`retn[X]` is the number of aligned pairs `(p, q)` whose reference base at `p`
is `G`, for which the complement of the reference base at `p - 1` is `X`, and
whose upper-cased observed base at `q` is `G`, while `conv[X]` is the number of
those observed as `A`; a pair observed as anything else leaves the counters as
they are. -/
theorem C3_bottom_strand_counts (rs : refcache_t) (b : bam1_t) (bsstrand : Nat)
    (hs : bsstrand ≠ 0) (hsup : ∀ c ∈ b.cigar, supported_op (bam_cigar_op c)) :
    (∃ rpos qpos cnt pairs,
      count_walk rs b bsstrand = Except.ok (rpos, qpos, cnt) ∧
      aligned_pairs b = Except.ok (rpos, qpos, pairs) ∧
      ∀ X ∈ ['A', 'C', 'G', 'T'],
        cnt.retn (nt256char_to_nt256int8_table X) =
          (pairs.countP (fun pq => decide (refcache_getbase_upcase rs pq.1 = 'G' ∧
            complement (refcache_getbase_upcase rs (pq.1 - 1)) = X ∧
            toupper (bscall b pq.2) = 'G')) : Nat) ∧
        cnt.conv (nt256char_to_nt256int8_table X) =
          (pairs.countP (fun pq => decide (refcache_getbase_upcase rs pq.1 = 'G' ∧
            complement (refcache_getbase_upcase rs (pq.1 - 1)) = X ∧
            toupper (bscall b pq.2) = 'A')) : Nat)) ∧
      (∀ (cnt : counts_t) (p q : Nat), toupper (bscall b q) ≠ 'G' → toupper (bscall b q) ≠ 'A' →
        count_base rs b bsstrand cnt p q = cnt) := by
  refine ⟨?_, ?_⟩
  · obtain ⟨rpos, qpos, pairs, hp, hw⟩ := count_walk_supported rs b bsstrand hsup
    refine ⟨rpos, qpos, _, pairs, hw, hp, ?_⟩
    intro X hX
    rw [foldl_count_base_retn, foldl_count_base_conv]
    simp only [counts_zero, zero_add, Nat.cast_inj]
    constructor
    · apply List.countP_congr
      intro pq _
      simp only [retn_hit, table_eq_iff _ X hX, decide_eq_true_eq]
      tauto
    · apply List.countP_congr
      intro pq _
      simp only [conv_hit, table_eq_iff _ X hX, decide_eq_true_eq]
      tauto
  · intro cnt p q h1 h2
    unfold count_base
    simp [h1, h2, hs]

/-- Witness of C3: the bottom-strand read whose reference `G` (preceded by `C`)
is observed as `A` gets `conv[G] = 1`. -/
theorem C3_bottom_strand_counts_witness :
    ((1 : Nat) ≠ 0 ∧ ∀ c ∈ bottom_read.cigar, supported_op (bam_cigar_op c)) ∧
      (∃ rpos qpos cnt pairs,
        count_walk scenario_ref bottom_read 1 = Except.ok (rpos, qpos, cnt) ∧
        aligned_pairs bottom_read = Except.ok (rpos, qpos, pairs) ∧
        ∀ X ∈ ['A', 'C', 'G', 'T'],
          cnt.retn (nt256char_to_nt256int8_table X) =
            (pairs.countP (fun pq => decide (refcache_getbase_upcase scenario_ref pq.1 = 'G' ∧
              complement (refcache_getbase_upcase scenario_ref (pq.1 - 1)) = X ∧
              toupper (bscall bottom_read pq.2) = 'G')) : Nat) ∧
          cnt.conv (nt256char_to_nt256int8_table X) =
            (pairs.countP (fun pq => decide (refcache_getbase_upcase scenario_ref pq.1 = 'G' ∧
              complement (refcache_getbase_upcase scenario_ref (pq.1 - 1)) = X ∧
              toupper (bscall bottom_read pq.2) = 'A')) : Nat)) ∧
      ∃ rpos qpos cnt, count_walk scenario_ref bottom_read 1 = Except.ok (rpos, qpos, cnt) ∧
        cnt.conv (nt256char_to_nt256int8_table 'G') = 1 ∧
        cnt.retn (nt256char_to_nt256int8_table 'G') = 0 :=
  ⟨⟨by decide, by decide⟩,
    (C3_bottom_strand_counts scenario_ref bottom_read 1 (by decide) (by decide)).1,
    ⟨_, _, _, rfl, by decide, by decide⟩⟩


/-! ## C4: the filter and its reference definition -/

theorem above_bound_of (v m : Int) : above v (bound_of m) = decide (m ≥ 0 ∧ v > m) := by
  unfold above bound_of
  by_cases h : m ≥ 0
  · have e : ((m.toNat : Nat) : Int) = m := Int.toNat_of_nonneg h
    simp [h, e]
  · simp [h]

theorem tofilter_eq_spec (conf : bsconv_conf_t) (cnt : counts_t) :
    tofilter conf cnt =
      spec_shouldSuppress cnt (thresholds_of conf) (decide (conf.show_filtered ≠ 0)) := by
  unfold tofilter spec_shouldSuppress spec_exceeds thresholds_of retained
  simp only [above_bound_of]
  by_cases h1 : conf.max_cpa ≥ 0 ∧ cnt.retn (nt256char_to_nt256int8_table 'A') > conf.max_cpa <;>
  by_cases h2 : conf.max_cpc ≥ 0 ∧ cnt.retn (nt256char_to_nt256int8_table 'C') > conf.max_cpc <;>
  by_cases h3 : conf.max_cpt ≥ 0 ∧ cnt.retn (nt256char_to_nt256int8_table 'T') > conf.max_cpt <;>
  by_cases h4 : conf.max_cph ≥ 0 ∧ cnt.retn (nt256char_to_nt256int8_table 'A') +
      cnt.retn (nt256char_to_nt256int8_table 'C') +
      cnt.retn (nt256char_to_nt256int8_table 'T') > conf.max_cph <;>
  by_cases h5 : conf.show_filtered ≠ 0 <;>
  simp [h1, h2, h3, h4, h5]

/-- C4: the value of `tofilter` computed by `bsconv_func` is `invertPolarity`
XOR `exceeds`, with `invertPolarity` the flag `show_filtered`, a threshold being
set when it is not negative, and `exceeds` true exactly when a set bound is
strictly below its retained count (maxCpH against the sum over A, C, T).  The
comparisons are strict: under normal polarity a table none of whose retained
counts is above its set bound (equality included) is not suppressed. -/
theorem C4_filter_refines_spec (conf : bsconv_conf_t) (cnt : counts_t) :
    tofilter conf cnt =
        spec_shouldSuppress cnt (thresholds_of conf) (decide (conf.show_filtered ≠ 0)) ∧
      spec_shouldSuppress cnt (thresholds_of conf) (decide (conf.show_filtered ≠ 0)) =
        Bool.xor (decide (conf.show_filtered ≠ 0)) (spec_exceeds (thresholds_of conf) cnt) ∧
      (spec_exceeds (thresholds_of conf) cnt = true ↔
        (conf.max_cpa ≥ 0 ∧ retained cnt 'A' > conf.max_cpa) ∨
        (conf.max_cpc ≥ 0 ∧ retained cnt 'C' > conf.max_cpc) ∨
        (conf.max_cpt ≥ 0 ∧ retained cnt 'T' > conf.max_cpt) ∨
        (conf.max_cph ≥ 0 ∧
          retained cnt 'A' + retained cnt 'C' + retained cnt 'T' > conf.max_cph)) ∧
      (conf.show_filtered = 0 ∧
        (conf.max_cpa < 0 ∨ retained cnt 'A' ≤ conf.max_cpa) ∧
        (conf.max_cpc < 0 ∨ retained cnt 'C' ≤ conf.max_cpc) ∧
        (conf.max_cpt < 0 ∨ retained cnt 'T' ≤ conf.max_cpt) ∧
        (conf.max_cph < 0 ∨
          retained cnt 'A' + retained cnt 'C' + retained cnt 'T' ≤ conf.max_cph) →
        tofilter conf cnt = false) := by
  have hex : spec_exceeds (thresholds_of conf) cnt = true ↔
      (conf.max_cpa ≥ 0 ∧ retained cnt 'A' > conf.max_cpa) ∨
      (conf.max_cpc ≥ 0 ∧ retained cnt 'C' > conf.max_cpc) ∨
      (conf.max_cpt ≥ 0 ∧ retained cnt 'T' > conf.max_cpt) ∨
      (conf.max_cph ≥ 0 ∧
        retained cnt 'A' + retained cnt 'C' + retained cnt 'T' > conf.max_cph) := by
    unfold spec_exceeds thresholds_of
    simp only [above_bound_of, Bool.or_eq_true, decide_eq_true_eq]
    tauto
  refine ⟨tofilter_eq_spec conf cnt, rfl, hex, ?_⟩
  rintro ⟨h0, ha, hc, ht, hh⟩
  rw [tofilter_eq_spec]
  unfold spec_shouldSuppress
  have hne : spec_exceeds (thresholds_of conf) cnt = false := by
    rw [← Bool.not_eq_true, hex]
    omega
  simp [h0, hne]


/-! ## C5: reads without a MatchOrMismatch operation -/

theorem cigar_loop_no_match {σ : Type} (body : σ → Nat → Nat → σ) (cigar : List Nat)
    (h : ∀ c ∈ cigar, bam_cigar_op c = BAM_CINS ∨ bam_cigar_op c = BAM_CSOFT_CLIP ∨
      bam_cigar_op c = BAM_CHARD_CLIP) (rpos qpos : Nat) (s : σ) :
    ∃ rpos2 qpos2, cigar_loop body cigar rpos qpos s = Except.ok (rpos2, qpos2, s) := by
  induction cigar generalizing rpos qpos with
  | nil => exact ⟨_, _, rfl⟩
  | cons c rest ih =>
    have hr : ∀ c ∈ rest, bam_cigar_op c = BAM_CINS ∨ bam_cigar_op c = BAM_CSOFT_CLIP ∨
        bam_cigar_op c = BAM_CHARD_CLIP := fun x hx => h x (List.mem_cons_of_mem _ hx)
    rcases h c (List.mem_cons_self _ _) with hc | hc | hc
    · rw [cigar_loop_ins _ _ _ hc]; exact ih hr _ _
    · rw [cigar_loop_clip _ _ _ (Or.inl hc)]; exact ih hr _ _
    · rw [cigar_loop_clip _ _ _ (Or.inr hc)]; exact ih hr _ _

theorem tofilter_counts_zero (conf : bsconv_conf_t) :
    tofilter conf counts_zero = decide (conf.show_filtered ≠ 0) := by
  unfold tofilter counts_zero
  have h1 : ¬ (conf.max_cpa ≥ 0 ∧ (0 : Int) > conf.max_cpa) := by omega
  have h2 : ¬ (conf.max_cpc ≥ 0 ∧ (0 : Int) > conf.max_cpc) := by omega
  have h3 : ¬ (conf.max_cpt ≥ 0 ∧ (0 : Int) > conf.max_cpt) := by omega
  have h4 : ¬ (conf.max_cph ≥ 0 ∧ (0 : Int) + 0 + 0 > conf.max_cph) := by omega
  have h6 : conf.max_cph < 0 ∨ 0 ≤ conf.max_cph := by omega
  by_cases h5 : conf.show_filtered ≠ 0
  · simp [h1, h2, h3, h4, h5, h6]
  · simp [h1, h2, h3, h4, h5, h6]

theorem output_record_outputs_ne_nil (out : Bool) (b : bam1_t) :
    (output_record out b).outputs ≠ [] := by
  cases out <;> simp [output_record]

/-- C5, the claim refuted as stated: the read made of one soft clip, with the
thresholds unset and `show_filtered` set, is counted to the all-zero table and
then suppressed: `tofilter` is true and the call returns without any output. -/
theorem C5_counterexample :
    (∀ c ∈ clip_read.cigar, bam_cigar_op c = BAM_CINS ∨ bam_cigar_op c = BAM_CSOFT_CLIP ∨
        bam_cigar_op c = BAM_CHARD_CLIP) ∧
      tofilter inverted_conf counts_zero = true ∧
      bsconv_func scenario_ref inverted_conf 0 true clip_read = Except.ok ⟨[], clip_read⟩ :=
  ⟨by decide, by decide, rfl⟩

/-- C5, amended: for a read whose operations are only insertions and clips the
walk returns with every counter of `retn` and `conv` at zero; under normal
polarity (`show_filtered = 0`) the call returns with an output for every
setting of the thresholds, so the read is not suppressed; under inverted
polarity such a read, when it has none of the five flags of lines 58-62, is
suppressed. -/
theorem C5_clip_insertion_only (rs : refcache_t) (b : bam1_t) (bsstrand : Nat)
    (h : ∀ c ∈ b.cigar, bam_cigar_op c = BAM_CINS ∨ bam_cigar_op c = BAM_CSOFT_CLIP ∨
      bam_cigar_op c = BAM_CHARD_CLIP) :
    (∃ rpos qpos cnt, count_walk rs b bsstrand = Except.ok (rpos, qpos, cnt) ∧
      ∀ i, cnt.retn i = 0 ∧ cnt.conv i = 0) ∧
    (∀ (conf : bsconv_conf_t) (out : Bool), conf.show_filtered = 0 →
      ∃ e, bsconv_func rs conf bsstrand out b = Except.ok e ∧ e.outputs ≠ []) ∧
    (∀ (conf : bsconv_conf_t) (out : Bool), conf.show_filtered ≠ 0 → skip_flags b.flag = false →
      bsconv_func rs conf bsstrand out b = Except.ok ⟨[], b⟩) := by
  obtain ⟨rpos, qpos, hw⟩ :=
    cigar_loop_no_match (count_base rs b bsstrand) b.cigar h (rpos_init b) 0 counts_zero
  have hw2 : count_walk rs b bsstrand = Except.ok (rpos, qpos, counts_zero) := hw
  refine ⟨⟨rpos, qpos, counts_zero, hw2, fun i => ⟨rfl, rfl⟩⟩, ?_, ?_⟩
  · intro conf out h0
    unfold bsconv_func
    by_cases hf : skip_flags b.flag = true
    · rw [if_pos hf]
      exact ⟨_, rfl, output_record_outputs_ne_nil out b⟩
    · rw [if_neg hf, hw2]
      have ht : tofilter conf counts_zero = false := by
        rw [tofilter_counts_zero]; simp [h0]
      simp only [ht]
      by_cases hp : conf.print_in_tab ≠ 0
      · rw [if_neg (by simp), if_pos hp]
        exact ⟨_, rfl, by simp⟩
      · rw [if_neg (by simp), if_neg hp]
        exact ⟨_, rfl, output_record_outputs_ne_nil out _⟩
  · intro conf out h1 hf
    unfold bsconv_func
    rw [if_neg (by simp [hf]), hw2]
    have ht : tofilter conf counts_zero = true := by
      rw [tofilter_counts_zero]; simp [h1]
    simp only [ht]
    rfl

/-- Witness of C5 (amended) on the read made of one soft clip. -/
theorem C5_clip_insertion_only_witness :
    (∀ c ∈ clip_read.cigar, bam_cigar_op c = BAM_CINS ∨ bam_cigar_op c = BAM_CSOFT_CLIP ∨
        bam_cigar_op c = BAM_CHARD_CLIP) ∧
      (∃ rpos qpos cnt, count_walk scenario_ref clip_read 0 = Except.ok (rpos, qpos, cnt) ∧
        ∀ i, cnt.retn i = 0 ∧ cnt.conv i = 0) :=
  ⟨by decide, (C5_clip_insertion_only scenario_ref clip_read 0 (by decide)).1⟩


/-! ## C6: strand consistency -/

theorem count_base_wrong_strand (rs : refcache_t) (b : bam1_t) (bsstrand : Nat)
    (cnt : counts_t) (p q : Nat) (h : wrong_strand rs bsstrand p) :
    count_base rs b bsstrand cnt p q = cnt := by
  unfold count_base
  rcases h with ⟨hs, hC⟩ | ⟨hs, hG⟩
  · simp [hs, hC]
  · simp [hs, hG]

theorem count_base_not_consistent (rs : refcache_t) (b : bam1_t) (bsstrand : Nat)
    (cnt : counts_t) (p q : Nat) (h : ¬ strand_consistent rs bsstrand p) :
    count_base rs b bsstrand cnt p q = cnt := by
  unfold strand_consistent at h
  unfold count_base
  by_cases hs : bsstrand = 0
  · by_cases hC : refcache_getbase_upcase rs p = 'C'
    · exact absurd (Or.inr ⟨hs, hC⟩) h
    · simp [hs, hC]
  · by_cases hG : refcache_getbase_upcase rs p = 'G'
    · exact absurd (Or.inl ⟨hs, hG⟩) h
    · simp [hs, hG]

theorem count_base_congr_seq (rs : refcache_t) (b b2 : bam1_t) (bsstrand : Nat)
    (cnt : counts_t) (p q : Nat) (h : bscall b2 q = bscall b q) :
    count_base rs b2 bsstrand cnt p q = count_base rs b bsstrand cnt p q := by
  simp only [count_base, h]

theorem foldl_id_of_forall {α β : Type} (f : α → β → α) (l : List β) (a : α)
    (h : ∀ x, ∀ y ∈ l, f x y = x) : l.foldl f a = a := by
  induction l generalizing a with
  | nil => rfl
  | cons y ys ih =>
    rw [List.foldl_cons, h a y (List.mem_cons_self _ _)]
    exact ih a (fun x z hz => h x z (List.mem_cons_of_mem _ hz))

/-- C6: at a position whose reference base is of the wrong strand (`C` for a
bottom-strand read, `G` for a top-strand read) the loop body leaves both
counter arrays as they are; a read that differs from another only in observed
bases aligned to such positions gets the same result of the walk; and a read
none of whose aligned reference bases is the strand-consistent one (no `G` for
bottom, no `C` for top) gets counters that are all zero. -/
theorem C6_strand_consistency (rs : refcache_t) (bsstrand : Nat) :
    (∀ (b : bam1_t) (cnt : counts_t) (p q : Nat), wrong_strand rs bsstrand p →
      count_base rs b bsstrand cnt p q = cnt) ∧
    (∀ (b b2 : bam1_t), b2.pos = b.pos → b2.cigar = b.cigar →
      (∀ rpos qpos pairs, aligned_pairs b = Except.ok (rpos, qpos, pairs) →
        ∀ pq ∈ pairs, bscall b2 pq.2 ≠ bscall b pq.2 → wrong_strand rs bsstrand pq.1) →
      count_walk rs b2 bsstrand = count_walk rs b bsstrand) ∧
    (∀ (b : bam1_t) (rpos qpos : Nat) (pairs : List (Nat × Nat)),
      aligned_pairs b = Except.ok (rpos, qpos, pairs) →
      (∀ pq ∈ pairs, ¬ strand_consistent rs bsstrand pq.1) →
      ∃ cnt, count_walk rs b bsstrand = Except.ok (rpos, qpos, cnt) ∧
        ∀ i, cnt.retn i = 0 ∧ cnt.conv i = 0) := by
  refine ⟨fun b cnt p q h => count_base_wrong_strand rs b bsstrand cnt p q h, ?_, ?_⟩
  · intro b b2 hpos hcig hdiff
    have hinit : rpos_init b2 = rpos_init b := by unfold rpos_init; rw [hpos]
    unfold count_walk
    rw [cigar_loop_eq_fold, cigar_loop_eq_fold (count_base rs b bsstrand), hcig, hinit]
    unfold aligned_pairs at hdiff
    generalize cigar_loop (fun a p q => a ++ [(p, q)]) b.cigar (rpos_init b) 0 [] = r at hdiff
    cases r with
    | error op => rfl
    | ok v =>
      obtain ⟨rpos, qpos, pairs⟩ := v
      simp only [Except.map]
      have hfold : pairs.foldl (fun a pq => count_base rs b2 bsstrand a pq.1 pq.2) counts_zero =
          pairs.foldl (fun a pq => count_base rs b bsstrand a pq.1 pq.2) counts_zero := by
        apply List.foldl_ext
        intro a pq hpq
        by_cases he : bscall b2 pq.2 = bscall b pq.2
        · exact count_base_congr_seq rs b b2 bsstrand a pq.1 pq.2 he
        · have hw := hdiff rpos qpos pairs rfl pq hpq he
          rw [count_base_wrong_strand rs b2 bsstrand a pq.1 pq.2 hw,
            count_base_wrong_strand rs b bsstrand a pq.1 pq.2 hw]
      rw [hfold]
  · intro b rpos qpos pairs hp hnone
    refine ⟨counts_zero, ?_, fun i => ⟨rfl, rfl⟩⟩
    unfold count_walk
    unfold aligned_pairs at hp
    rw [cigar_loop_eq_fold, hp]
    simp only [Except.map]
    rw [foldl_id_of_forall _ pairs counts_zero
      (fun x pq hpq => count_base_not_consistent rs b bsstrand x pq.1 pq.2 (hnone pq hpq))]

/-- Witness of C6: on the top strand the read of scenario B and the read that
differs from it only at the offset aligned to the reference `G` are counted
alike. -/
theorem C6_strand_consistency_witness :
    count_walk scenario_ref scenarioB_read_alt 0 = count_walk scenario_ref scenarioB_read 0 :=
  (C6_strand_consistency scenario_ref 0).2.1 scenarioB_read scenarioB_read_alt rfl rfl
    (by
      intro rpos qpos pairs hp pq hpq hne
      have hp2 : aligned_pairs scenarioB_read =
          Except.ok (105, 4, [(101, 0), (102, 1), (103, 2), (104, 3)]) := rfl
      rw [hp2] at hp
      injection hp with hp
      injection hp with _ hp
      injection hp with _ hp
      subst hp
      simp only [List.mem_cons, List.mem_singleton, List.not_mem_nil, or_false] at hpq
      rcases hpq with rfl | rfl | rfl | rfl
      · exact absurd rfl hne
      · exact absurd rfl hne
      · right; exact ⟨rfl, by decide⟩
      · exact absurd rfl hne)


/-! ## C7: the abort branch -/

/-- C7: a call of `bsconv_func` ends in the `default` branch (diagnostic and
`abort()`) if and only if the read has none of the five flags of lines 58-62
and its operation list holds an operation whose tag is not M, I, D, S or H; and
for every operation list made only of those five tags the walk returns a count
table. -/
theorem C7_abort_iff_unsupported (rs : refcache_t) (conf : bsconv_conf_t) (bsstrand : Nat)
    (out : Bool) (b : bam1_t) :
    ((∃ op, bsconv_func rs conf bsstrand out b = Except.error op) ↔
      (skip_flags b.flag = false ∧ ∃ c ∈ b.cigar, ¬ supported_op (bam_cigar_op c))) ∧
    ((∃ op, count_walk rs b bsstrand = Except.error op) ↔
      ∃ c ∈ b.cigar, ¬ supported_op (bam_cigar_op c)) ∧
    ((∀ c ∈ b.cigar, supported_op (bam_cigar_op c)) →
      ∃ rpos qpos cnt, count_walk rs b bsstrand = Except.ok (rpos, qpos, cnt)) := by
  have hwalk : (∃ op, count_walk rs b bsstrand = Except.error op) ↔
      ∃ c ∈ b.cigar, ¬ supported_op (bam_cigar_op c) :=
    cigar_loop_error_iff (count_base rs b bsstrand) b.cigar (rpos_init b) 0 counts_zero
  refine ⟨?_, hwalk, ?_⟩
  · rw [← hwalk]
    unfold bsconv_func
    by_cases hf : skip_flags b.flag = true
    · simp [hf]
    · rw [if_neg hf]
      have hf2 : skip_flags b.flag = false := by simpa using hf
      cases hw : count_walk rs b bsstrand with
      | error op => simp [hf2]
      | ok v =>
        obtain ⟨rpos, qpos, cnt⟩ := v
        simp only [hf2, true_and]
        constructor
        · rintro ⟨op, h⟩
          exfalso
          split_ifs at h
        · rintro ⟨op, h⟩
          cases h
  · intro hsup
    obtain ⟨⟨rpos, qpos, cnt⟩, h⟩ :=
      cigar_loop_ok_of_supported (count_base rs b bsstrand) b.cigar hsup (rpos_init b) 0
        counts_zero
    exact ⟨rpos, qpos, cnt, h⟩

/-- Witness of C7: the read with a reference-skip operation makes the call end
in the abort branch, with the tag 3 reported. -/
theorem C7_abort_iff_unsupported_witness :
    (skip_flags skip_read.flag = false ∧ ∃ c ∈ skip_read.cigar, ¬ supported_op (bam_cigar_op c)) ∧
      (∃ op, bsconv_func scenario_ref main_bsconv_conf 0 true skip_read = Except.error op) ∧
      bsconv_func scenario_ref main_bsconv_conf 0 true skip_read = Except.error 3 :=
  ⟨⟨by decide, by decide⟩,
    (C7_abort_iff_unsupported scenario_ref main_bsconv_conf 0 true skip_read).1.mpr
      ⟨by decide, by decide⟩,
    rfl⟩


/-! ## C8: an ambiguous context-determining base -/

theorem table_lt_four_iff (c : Char) :
    nt256char_to_nt256int8_table c < 4 ↔ c ∈ ['A', 'C', 'G', 'T'] := by
  unfold nt256char_to_nt256int8_table
  simp only [List.mem_cons, List.mem_singleton, List.not_mem_nil, or_false]
  split_ifs with h1 h2 h3 h4 <;> simp_all

theorem complement_mem_iff (c : Char) :
    complement c ∈ ['A', 'C', 'G', 'T'] ↔ c ∈ ['A', 'C', 'G', 'T'] := by
  unfold complement
  simp only [List.mem_cons, List.mem_singleton, List.not_mem_nil, or_false]
  split_ifs with h1 h2 h3 h4 <;> simp_all

theorem not_retn_hit_of_invalid (rs : refcache_t) (b : bam1_t) (bsstrand i : Nat)
    (pq : Nat × Nat) (hi : i < 4) (h : invalid_context rs bsstrand pq.1) :
    ¬ retn_hit rs b bsstrand i pq := by
  intro hh
  rcases hh with ⟨hs, _, _, ht⟩ | ⟨hs, _, _, ht⟩
  · rcases h with ⟨hs2, _, _⟩ | ⟨_, _, hn⟩
    · exact hs hs2
    · rw [← ht, table_lt_four_iff, complement_mem_iff] at hi
      exact hn hi
  · rcases h with ⟨_, _, hn⟩ | ⟨hs2, _, _⟩
    · rw [← ht, table_lt_four_iff] at hi
      exact hn hi
    · exact hs2 hs

theorem not_conv_hit_of_invalid (rs : refcache_t) (b : bam1_t) (bsstrand i : Nat)
    (pq : Nat × Nat) (hi : i < 4) (h : invalid_context rs bsstrand pq.1) :
    ¬ conv_hit rs b bsstrand i pq := by
  intro hh
  rcases hh with ⟨hs, _, _, ht⟩ | ⟨hs, _, _, ht⟩
  · rcases h with ⟨hs2, _, _⟩ | ⟨_, _, hn⟩
    · exact hs hs2
    · rw [← ht, table_lt_four_iff, complement_mem_iff] at hi
      exact hn hi
  · rcases h with ⟨_, _, hn⟩ | ⟨hs2, _, _⟩
    · rw [← ht, table_lt_four_iff] at hi
      exact hn hi
    · exact hs2 hs

/-- C8: at a strand-consistent position whose context-determining reference
base (at `p + 1` for a top-strand `C`, at `p - 1` for a bottom-strand `G`) is
none of A, C, G, T, the loop body changes none of the eight counters
`retn[0..3]`, `conv[0..3]` (so it does not count the position under context A);
the walk of a supported operation list returns, and each of the eight counters
has the value that the walk gives when these positions are left out and the
loop body is run at all the other pairs. -/
theorem C8_invalid_base_skipped (rs : refcache_t) (b : bam1_t) (bsstrand : Nat)
    (hsup : ∀ c ∈ b.cigar, supported_op (bam_cigar_op c)) :
    (∀ (cnt : counts_t) (p q : Nat), invalid_context rs bsstrand p →
      ∀ i < 4, (count_base rs b bsstrand cnt p q).retn i = cnt.retn i ∧
        (count_base rs b bsstrand cnt p q).conv i = cnt.conv i) ∧
    (∃ rpos qpos cnt pairs,
      count_walk rs b bsstrand = Except.ok (rpos, qpos, cnt) ∧
      aligned_pairs b = Except.ok (rpos, qpos, pairs) ∧
      ∀ i < 4,
        cnt.retn i =
          ((pairs.filter (fun pq => decide (¬ invalid_context rs bsstrand pq.1))).foldl
            (fun c pq => count_base rs b bsstrand c pq.1 pq.2) counts_zero).retn i ∧
        cnt.conv i =
          ((pairs.filter (fun pq => decide (¬ invalid_context rs bsstrand pq.1))).foldl
            (fun c pq => count_base rs b bsstrand c pq.1 pq.2) counts_zero).conv i) := by
  constructor
  · intro cnt p q hinv i hi
    rw [count_base_retn, count_base_conv,
      if_neg (not_retn_hit_of_invalid rs b bsstrand i (p, q) hi hinv),
      if_neg (not_conv_hit_of_invalid rs b bsstrand i (p, q) hi hinv)]
    simp
  · obtain ⟨rpos, qpos, pairs, hp, hw⟩ := count_walk_supported rs b bsstrand hsup
    refine ⟨rpos, qpos, _, pairs, hw, hp, ?_⟩
    intro i hi
    rw [foldl_count_base_retn, foldl_count_base_conv, foldl_count_base_retn,
      foldl_count_base_conv, List.countP_filter, List.countP_filter]
    constructor
    · congr 2
      apply List.countP_congr
      intro pq _
      simp only [Bool.and_eq_true, decide_eq_true_eq, decide_not, Bool.not_eq_true',
        decide_eq_false_iff_not]
      exact ⟨fun h => ⟨h, fun hinv => not_retn_hit_of_invalid rs b bsstrand i pq hi hinv h⟩,
        fun h => h.1⟩
    · congr 2
      apply List.countP_congr
      intro pq _
      simp only [Bool.and_eq_true, decide_eq_true_eq, decide_not, Bool.not_eq_true',
        decide_eq_false_iff_not]
      exact ⟨fun h => ⟨h, fun hinv => not_conv_hit_of_invalid rs b bsstrand i pq hi hinv h⟩,
        fun h => h.1⟩

/-- Witness of C8: over the reference `CNCG` the top-strand read observed as
`CNCG` has its first `C` followed by `N` and its second `C` followed by `G`;
the walk returns, `retn[A]` stays 0 and the later position is counted,
`retn[G] = 1`. -/
theorem C8_invalid_base_skipped_witness :
    (∀ c ∈ ambiguous_read.cigar, supported_op (bam_cigar_op c)) ∧
      invalid_context ambiguous_ref 0 101 ∧
      (∀ (cnt : counts_t) (p q : Nat), invalid_context ambiguous_ref 0 p →
        ∀ i < 4, (count_base ambiguous_ref ambiguous_read 0 cnt p q).retn i = cnt.retn i ∧
          (count_base ambiguous_ref ambiguous_read 0 cnt p q).conv i = cnt.conv i) ∧
      ∃ rpos qpos cnt, count_walk ambiguous_ref ambiguous_read 0 = Except.ok (rpos, qpos, cnt) ∧
        cnt.retn 0 = 0 ∧ cnt.retn 2 = 1 :=
  ⟨by decide, by decide,
    (C8_invalid_base_skipped ambiguous_ref ambiguous_read 0 (by decide)).1,
    ⟨_, _, _, rfl, by decide, by decide⟩⟩

/-! ## C9, C10: thresholds that are unset, counters that are not read -/

theorem tofilter_unset (conf : bsconv_conf_t) (cnt : counts_t)
    (h : conf.max_cph < 0 ∧ conf.max_cpa < 0 ∧ conf.max_cpc < 0 ∧ conf.max_cpt < 0) :
    tofilter conf cnt = decide (conf.show_filtered ≠ 0) := by
  obtain ⟨hh, ha, hc, ht⟩ := h
  unfold tofilter
  have h1 : ¬ conf.max_cpa ≥ 0 := by omega
  have h2 : ¬ conf.max_cpc ≥ 0 := by omega
  have h3 : ¬ conf.max_cpt ≥ 0 := by omega
  have h4 : ¬ conf.max_cph ≥ 0 := by omega
  by_cases h5 : conf.show_filtered ≠ 0
  · simp [h1, h2, h3, h4, h5]
  · simp [h1, h2, h3, h4, h5]

/-- C9: when the four thresholds are unset (negative) the value of `tofilter`
is false under normal polarity and true under inverted polarity, whatever the
count table; the configuration installed by `main_bsconv` before the options
are read has the four thresholds at -1 and `show_filtered` at 0; and with that
configuration a call that returns always has an output, so no read is
suppressed. -/
theorem C9_unset_thresholds (conf : bsconv_conf_t) (cnt : counts_t)
    (h : conf.max_cph < 0 ∧ conf.max_cpa < 0 ∧ conf.max_cpc < 0 ∧ conf.max_cpt < 0) :
    (conf.show_filtered = 0 → tofilter conf cnt = false) ∧
    (conf.show_filtered ≠ 0 → tofilter conf cnt = true) ∧
    (main_bsconv_conf.max_cph = -1 ∧ main_bsconv_conf.max_cpa = -1 ∧
      main_bsconv_conf.max_cpc = -1 ∧ main_bsconv_conf.max_cpt = -1 ∧
      main_bsconv_conf.show_filtered = 0) ∧
    tofilter main_bsconv_conf cnt = false ∧
    (∀ (rs : refcache_t) (bsstrand : Nat) (out : Bool) (b : bam1_t),
      ((∀ c ∈ b.cigar, supported_op (bam_cigar_op c)) →
        ∃ e, bsconv_func rs main_bsconv_conf bsstrand out b = Except.ok e) ∧
      ∀ e, bsconv_func rs main_bsconv_conf bsstrand out b = Except.ok e → e.outputs ≠ []) := by
  have hdef : ∀ c : counts_t, tofilter main_bsconv_conf c = false := by
    intro c
    rw [tofilter_unset main_bsconv_conf c (by decide)]
    decide
  refine ⟨?_, ?_, by decide, hdef cnt, ?_⟩
  · intro h0
    rw [tofilter_unset conf cnt h]
    simp [h0]
  · intro h1
    rw [tofilter_unset conf cnt h]
    simp [h1]
  · intro rs bsstrand out b
    have key : ∀ e, bsconv_func rs main_bsconv_conf bsstrand out b = Except.ok e →
        e.outputs ≠ [] := by
      intro e he
      unfold bsconv_func at he
      by_cases hf : skip_flags b.flag = true
      · rw [if_pos hf] at he
        injection he with he
        rw [← he]
        exact output_record_outputs_ne_nil out b
      · rw [if_neg hf] at he
        cases hw : count_walk rs b bsstrand with
        | error op => rw [hw] at he; cases he
        | ok v =>
          obtain ⟨rpos, qpos, c⟩ := v
          rw [hw] at he
          simp only [hdef c] at he
          have hp : ¬ main_bsconv_conf.print_in_tab ≠ 0 := by decide
          rw [if_neg (by simp), if_neg hp] at he
          injection he with he
          rw [← he]
          exact output_record_outputs_ne_nil out _
    refine ⟨?_, key⟩
    intro hsup
    unfold bsconv_func
    by_cases hf : skip_flags b.flag = true
    · rw [if_pos hf]; exact ⟨_, rfl⟩
    · rw [if_neg hf]
      obtain ⟨⟨rpos, qpos, c⟩, hw⟩ :=
        cigar_loop_ok_of_supported (count_base rs b bsstrand) b.cigar hsup (rpos_init b) 0
          counts_zero
      have hw2 : count_walk rs b bsstrand = Except.ok (rpos, qpos, c) := hw
      rw [hw2]
      simp only [hdef c]
      have hp : ¬ main_bsconv_conf.print_in_tab ≠ 0 := by decide
      rw [if_neg (by simp), if_neg hp]
      exact ⟨_, rfl⟩

/-- Witness of C9 on the configuration installed by `main_bsconv`. -/
theorem C9_unset_thresholds_witness :
    (main_bsconv_conf.max_cph < 0 ∧ main_bsconv_conf.max_cpa < 0 ∧
        main_bsconv_conf.max_cpc < 0 ∧ main_bsconv_conf.max_cpt < 0) ∧
      tofilter main_bsconv_conf (incr_retn counts_zero 0) = false :=
  ⟨by decide, (C9_unset_thresholds main_bsconv_conf (incr_retn counts_zero 0) (by decide)).1 rfl⟩

/-- C10: two count tables that agree on the retained counts of the contexts A,
C and T get the same value of `tofilter`, for every configuration: the
decision reads neither the retained count of context G nor any converted
count. -/
theorem C10_filter_ignores_CpG (conf : bsconv_conf_t) (cnt cnt2 : counts_t)
    (hA : retained cnt 'A' = retained cnt2 'A')
    (hC : retained cnt 'C' = retained cnt2 'C')
    (hT : retained cnt 'T' = retained cnt2 'T') :
    tofilter conf cnt = tofilter conf cnt2 := by
  unfold retained at hA hC hT
  unfold tofilter
  rw [hA, hC, hT]

/-- Witness of C10: a table with `retn[G] = 1` and `conv[A] = 1` against the
all-zero table, under the bound 0 for every threshold. -/
theorem C10_filter_ignores_CpG_witness :
    (retained (incr_retn (incr_conv counts_zero 0) 2) 'A' = retained counts_zero 'A' ∧
        retained (incr_retn (incr_conv counts_zero 0) 2) 'C' = retained counts_zero 'C' ∧
        retained (incr_retn (incr_conv counts_zero 0) 2) 'T' = retained counts_zero 'T') ∧
      tofilter ⟨0, 0, 0, 0, 0, 0⟩ (incr_retn (incr_conv counts_zero 0) 2) =
        tofilter ⟨0, 0, 0, 0, 0, 0⟩ counts_zero :=
  ⟨by decide,
    C10_filter_ignores_CpG ⟨0, 0, 0, 0, 0, 0⟩ (incr_retn (incr_conv counts_zero 0) 2) counts_zero
      (by decide) (by decide) (by decide)⟩


/-! ## C11: one exceeded bound, and the two polarities -/

theorem tofilter_with_polarity (conf : bsconv_conf_t) (cnt : counts_t) (v : Int) :
    tofilter (with_polarity conf v) cnt =
      Bool.xor (decide (v ≠ 0)) (spec_exceeds (thresholds_of conf) cnt) := by
  rw [tofilter_eq_spec]
  rfl

theorem spec_exceeds_iff (conf : bsconv_conf_t) (cnt : counts_t) :
    spec_exceeds (thresholds_of conf) cnt = true ↔
      (conf.max_cpa ≥ 0 ∧ retained cnt 'A' > conf.max_cpa) ∨
      (conf.max_cpc ≥ 0 ∧ retained cnt 'C' > conf.max_cpc) ∨
      (conf.max_cpt ≥ 0 ∧ retained cnt 'T' > conf.max_cpt) ∨
      (conf.max_cph ≥ 0 ∧
        retained cnt 'A' + retained cnt 'C' + retained cnt 'T' > conf.max_cph) := by
  unfold spec_exceeds thresholds_of
  simp only [above_bound_of, Bool.or_eq_true, decide_eq_true_eq]
  tauto

/-- C11: when `maxCpA = m` with `0 ≤ m` and `retained[A] > m`, whatever the
other three thresholds, `tofilter` is true under normal polarity and false
under inverted polarity; this is so for `maxCpA = 0` and `retained[A] = 1`; and
for every count table and configuration the two polarities give opposite
decisions, so exactly one of them suppresses the read. -/
theorem C11_single_bound_and_polarity (conf : bsconv_conf_t) (cnt : counts_t) (m : Int)
    (hm : 0 ≤ m) (hset : conf.max_cpa = m) (hA : retained cnt 'A' > m) :
    (conf.show_filtered = 0 → tofilter conf cnt = true) ∧
    (conf.show_filtered ≠ 0 → tofilter conf cnt = false) ∧
    (retained one_retained_A 'A' = 1 ∧ scenarioC_conf.max_cpa = 0 ∧
      tofilter scenarioC_conf one_retained_A = true ∧
      tofilter (with_polarity scenarioC_conf 1) one_retained_A = false) ∧
    (∀ (conf2 : bsconv_conf_t) (cnt2 : counts_t) (v : Int), v ≠ 0 →
      tofilter (with_polarity conf2 0) cnt2 = !tofilter (with_polarity conf2 v) cnt2) := by
  have hex : spec_exceeds (thresholds_of conf) cnt = true := by
    rw [spec_exceeds_iff]
    left
    exact ⟨by omega, by omega⟩
  refine ⟨?_, ?_, ⟨by decide, by decide, by decide, by decide⟩, ?_⟩
  · intro h0
    rw [tofilter_eq_spec, spec_shouldSuppress, hex]
    simp [h0]
  · intro h1
    rw [tofilter_eq_spec, spec_shouldSuppress, hex]
    simp [h1]
  · intro conf2 cnt2 v hv
    rw [tofilter_with_polarity, tofilter_with_polarity]
    simp [hv]

/-- Witness of C11: scenario C (`maxCpA = 0`, `retained[A] = 1`, normal
polarity) is suppressed. -/
theorem C11_single_bound_and_polarity_witness :
    ((0 : Int) ≤ 0 ∧ scenarioC_conf.max_cpa = 0 ∧ retained one_retained_A 'A' > 0) ∧
      tofilter scenarioC_conf one_retained_A = true :=
  ⟨by decide,
    (C11_single_bound_and_polarity scenarioC_conf one_retained_A 0 (by decide) (by decide)
      (by decide)).1 (by decide)⟩


/-! ## C12, C13, C16, C17: what a call hands to the outside -/

theorem bsconv_func_skip (rs : refcache_t) (conf : bsconv_conf_t) (bsstrand : Nat) (out : Bool)
    (b : bam1_t) (hf : skip_flags b.flag = true) :
    bsconv_func rs conf bsstrand out b = Except.ok (output_record out b) := by
  unfold bsconv_func
  rw [if_pos hf]

theorem bsconv_func_counted (rs : refcache_t) (conf : bsconv_conf_t) (bsstrand : Nat)
    (out : Bool) (b : bam1_t) (rpos qpos : Nat) (cnt : counts_t)
    (hf : skip_flags b.flag = false)
    (hw : count_walk rs b bsstrand = Except.ok (rpos, qpos, cnt)) :
    bsconv_func rs conf bsstrand out b =
      if tofilter conf cnt then Except.ok ⟨[], b⟩
      else if conf.print_in_tab ≠ 0 then
        Except.ok ⟨[output_t.text (tab_line cnt b.qname)], b⟩
      else Except.ok (output_record out (bam_aux_append b "ZN" 'Z' (zn_text cnt))) := by
  unfold bsconv_func
  rw [if_neg (by simp [hf]), hw]

theorem bsconv_func_error (rs : refcache_t) (conf : bsconv_conf_t) (bsstrand : Nat)
    (out : Bool) (b : bam1_t) (op : Nat) (hf : skip_flags b.flag = false)
    (hw : count_walk rs b bsstrand = Except.error op) :
    bsconv_func rs conf bsstrand out b = Except.error op := by
  unfold bsconv_func
  rw [if_neg (by simp [hf]), hw]

theorem output_record_eq (out : Bool) (b : bam1_t) :
    output_record out b =
      ⟨[if out then output_t.sam_write b else output_t.sam_text b], b⟩ := by
  cases out <;> rfl

/-- C12, the claim refuted as stated: under inverted polarity the unmapped read
is emitted (its record is written once), although it is not counted and is not
suppressed under normal polarity with the same thresholds, where it is emitted
all the same. -/
theorem C12_counterexample :
    inverted_conf.show_filtered ≠ 0 ∧ skip_flags unmapped_read.flag = true ∧
      bsconv_func scenario_ref inverted_conf 0 true unmapped_read =
        Except.ok ⟨[output_t.sam_write unmapped_read], unmapped_read⟩ ∧
      bsconv_func scenario_ref (with_polarity inverted_conf 0) 0 true unmapped_read =
        Except.ok ⟨[output_t.sam_write unmapped_read], unmapped_read⟩ :=
  ⟨by decide, by decide, rfl, rfl⟩

/-- C12, amended: under inverted polarity (`show_filtered ≠ 0`) a call of
`bsconv_func` returns with an output exactly when the read either has one of
the five flags of lines 58-62 (it is then passed through) or was counted to a
table whose retained counts exceed a set bound, in which case the call with
the same thresholds under normal polarity returns without output. -/
theorem C12_inverted_polarity_emits (rs : refcache_t) (conf : bsconv_conf_t) (bsstrand : Nat)
    (out : Bool) (b : bam1_t) (hv : conf.show_filtered ≠ 0) :
    (∃ e, bsconv_func rs conf bsstrand out b = Except.ok e ∧ e.outputs ≠ []) ↔
      (skip_flags b.flag = true ∨
        (skip_flags b.flag = false ∧
          ∃ rpos qpos cnt, count_walk rs b bsstrand = Except.ok (rpos, qpos, cnt) ∧
            spec_exceeds (thresholds_of conf) cnt = true ∧
            bsconv_func rs (with_polarity conf 0) bsstrand out b = Except.ok ⟨[], b⟩)) := by
  by_cases hf : skip_flags b.flag = true
  · simp only [hf, true_or, iff_true]
    exact ⟨_, bsconv_func_skip rs conf bsstrand out b hf, output_record_outputs_ne_nil out b⟩
  · have hf2 : skip_flags b.flag = false := by simpa using hf
    simp only [hf2, Bool.false_eq_true, false_or, true_and]
    cases hw : count_walk rs b bsstrand with
    | error op =>
      rw [bsconv_func_error rs conf bsstrand out b op hf2 hw]
      simp
    | ok v =>
      obtain ⟨rpos, qpos, cnt⟩ := v
      rw [bsconv_func_counted rs conf bsstrand out b rpos qpos cnt hf2 hw,
        bsconv_func_counted rs (with_polarity conf 0) bsstrand out b rpos qpos cnt hf2 hw,
        tofilter_with_polarity, tofilter_eq_spec, spec_shouldSuppress]
      have hd : decide (conf.show_filtered ≠ 0) = true := by simpa using hv
      rw [hd]
      rcases Bool.eq_false_or_eq_true (spec_exceeds (thresholds_of conf) cnt) with hex | hex
      · rw [hex]
        simp only [Bool.xor_true, Bool.not_true, Bool.false_eq_true, if_false]
        constructor
        · intro _
          refine ⟨rpos, qpos, cnt, rfl, hex, ?_⟩
          simp
        · intro _
          by_cases hp : conf.print_in_tab ≠ 0
          · rw [if_pos hp]
            exact ⟨_, rfl, by simp⟩
          · rw [if_neg hp]
            exact ⟨_, rfl, output_record_outputs_ne_nil out _⟩
      · rw [hex]
        simp only [Bool.xor_false, if_true]
        constructor
        · rintro ⟨e, he, hne⟩
          injection he with he
          rw [← he] at hne
          exact absurd rfl hne
        · rintro ⟨_, _, _, h1, h2, _⟩
          injection h1 with h1
          injection h1 with _ h1
          injection h1 with _ h1
          subst h1
          rw [hex] at h2
          cases h2

/-- Witness of C12 (amended): under inverted polarity with `maxCpA = 0` the
read of scenario B, which retains no cytosine before `A`, is not emitted. -/
theorem C12_inverted_polarity_emits_witness :
    (with_polarity scenarioC_conf 1).show_filtered ≠ 0 ∧
      ¬ ∃ e, bsconv_func scenario_ref (with_polarity scenarioC_conf 1) 0 true scenarioB_read =
        Except.ok e ∧ e.outputs ≠ [] := by
  refine ⟨by decide, ?_⟩
  rw [C12_inverted_polarity_emits scenario_ref (with_polarity scenarioC_conf 1) 0 true
    scenarioB_read (by decide)]
  rintro (h | ⟨_, rpos, qpos, cnt, hw, hex, _⟩)
  · exact absurd h (by decide)
  · have hw2 : count_walk scenario_ref scenarioB_read 0 =
        Except.ok (105, 4, incr_retn counts_zero 2) := rfl
    rw [hw2] at hw
    injection hw with hw
    injection hw with _ hw
    injection hw with _ hw
    subst hw
    exact absurd hex (by decide)


/-- C13: a read with at least one of the flags unmapped, secondary, failed-QC,
duplicate, supplementary makes `bsconv_func` return at once through `OUTPUT`,
for every configuration, strand value and reference: the only output is the
record itself, written once (`sam_write1`, or its text form when no output
file is given), and the record is left as it was, without a `ZN` field. -/
theorem C13_pass_through (rs : refcache_t) (conf : bsconv_conf_t) (bsstrand : Nat)
    (out : Bool) (b : bam1_t)
    (hflag : b.flag &&& BAM_FUNMAP ≠ 0 ∨ b.flag &&& BAM_FSECONDARY ≠ 0 ∨
      b.flag &&& BAM_FQCFAIL ≠ 0 ∨ b.flag &&& BAM_FDUP ≠ 0 ∨
      b.flag &&& BAM_FSUPPLEMENTARY ≠ 0) :
    bsconv_func rs conf bsstrand out b =
        Except.ok ⟨[if out then output_t.sam_write b else output_t.sam_text b], b⟩ ∧
      (∀ e, bsconv_func rs conf bsstrand out b = Except.ok e →
        e.record = b ∧ e.record.aux = b.aux ∧ e.outputs.length = 1) := by
  have hf : skip_flags b.flag = true := by
    unfold skip_flags
    simp only [Bool.or_eq_true, bne_iff_ne, ne_eq]
    tauto
  have h := bsconv_func_skip rs conf bsstrand out b hf
  rw [output_record_eq] at h
  refine ⟨h, ?_⟩
  intro e he
  rw [h] at he
  injection he with he
  rw [← he]
  exact ⟨rfl, rfl, rfl⟩

/-- Witness of C13: the duplicate read is passed through unchanged in tabular
mode under inverted polarity with every threshold at 0. -/
theorem C13_pass_through_witness :
    (duplicate_read.flag &&& BAM_FUNMAP ≠ 0 ∨ duplicate_read.flag &&& BAM_FSECONDARY ≠ 0 ∨
        duplicate_read.flag &&& BAM_FQCFAIL ≠ 0 ∨ duplicate_read.flag &&& BAM_FDUP ≠ 0 ∨
        duplicate_read.flag &&& BAM_FSUPPLEMENTARY ≠ 0) ∧
      bsconv_func scenario_ref ⟨0, 0, 0, 0, 1, 1⟩ 1 false duplicate_read =
        Except.ok ⟨[output_t.sam_text duplicate_read], duplicate_read⟩ :=
  ⟨by decide,
    (C13_pass_through scenario_ref ⟨0, 0, 0, 0, 1, 1⟩ 1 false duplicate_read (by decide)).1⟩

/-- C16: for a counted read (none of the five flags, the walk returned the
table `cnt`) the call returns without any output exactly when `tofilter` is
true; in that case nothing is printed, nothing is written and the record is
left as it was, in both output modes; when `tofilter` is false the call has an
output. -/
theorem C16_suppressed_silent (rs : refcache_t) (conf : bsconv_conf_t) (bsstrand : Nat)
    (out : Bool) (b : bam1_t) (rpos qpos : Nat) (cnt : counts_t)
    (hf : skip_flags b.flag = false)
    (hw : count_walk rs b bsstrand = Except.ok (rpos, qpos, cnt)) :
    ((∃ e, bsconv_func rs conf bsstrand out b = Except.ok e ∧ e.outputs = []) ↔
        tofilter conf cnt = true) ∧
      (tofilter conf cnt = true →
        bsconv_func rs conf bsstrand out b = Except.ok ⟨[], b⟩) ∧
      (tofilter conf cnt = false →
        ∃ e, bsconv_func rs conf bsstrand out b = Except.ok e ∧ e.outputs ≠ []) := by
  have hc := bsconv_func_counted rs conf bsstrand out b rpos qpos cnt hf hw
  have h1 : tofilter conf cnt = true →
      bsconv_func rs conf bsstrand out b = Except.ok ⟨[], b⟩ := by
    intro ht
    rw [hc, if_pos ht]
  have h2 : tofilter conf cnt = false →
      ∃ e, bsconv_func rs conf bsstrand out b = Except.ok e ∧ e.outputs ≠ [] := by
    intro ht
    rw [hc, if_neg (by simp [ht])]
    by_cases hp : conf.print_in_tab ≠ 0
    · rw [if_pos hp]
      exact ⟨_, rfl, by simp⟩
    · rw [if_neg hp]
      exact ⟨_, rfl, output_record_outputs_ne_nil out _⟩
  refine ⟨⟨?_, fun ht => ⟨_, h1 ht, rfl⟩⟩, h1, h2⟩
  rintro ⟨e, he, hnil⟩
  rcases Bool.eq_false_or_eq_true (tofilter conf cnt) with ht | ht
  · exact ht
  · obtain ⟨e2, he2, hne⟩ := h2 ht
    rw [he] at he2
    injection he2 with he2
    rw [← he2] at hne
    exact absurd hnil hne

/-- Witness of C16: the read of scenario B, counted to `retn[G] = 1`, is
suppressed without output under inverted polarity with the thresholds unset. -/
theorem C16_suppressed_silent_witness :
    (skip_flags scenarioB_read.flag = false ∧
        count_walk scenario_ref scenarioB_read 0 =
          Except.ok (105, 4, incr_retn counts_zero 2)) ∧
      bsconv_func scenario_ref inverted_conf 0 true scenarioB_read =
        Except.ok ⟨[], scenarioB_read⟩ :=
  ⟨⟨by decide, rfl⟩,
    (C16_suppressed_silent scenario_ref inverted_conf 0 true scenarioB_read 105 4
      (incr_retn counts_zero 2) (by decide) rfl).2.1 (by decide)⟩

/-! ## C14: the text of the `ZN` field -/

theorem zn_text_eq_spec (cnt : counts_t) : zn_text cnt = spec_zn_text cnt := by
  have h0 : nt256char_to_nt256int8_table 'A' = 0 := by decide
  have h1 : nt256char_to_nt256int8_table 'C' = 1 := by decide
  have h2 : nt256char_to_nt256int8_table 'G' = 2 := by decide
  have h3 : nt256char_to_nt256int8_table 'T' = 3 := by decide
  have g0 : String.singleton (nt256int8_to_nt256char_table 0) = "A" := by decide
  have g1 : String.singleton (nt256int8_to_nt256char_table 1) = "C" := by decide
  have g2 : String.singleton (nt256int8_to_nt256char_table 2) = "G" := by decide
  have g3 : String.singleton (nt256int8_to_nt256char_table 3) = "T" := by decide
  have e1 : ("C" : String) ++ "A" ++ "_R" = "CA_R" := by decide
  have e2 : ∀ x : String, x ++ "," ++ "C" ++ "C" ++ "_R" = x ++ ",CC_R" := by
    intro x; simp only [String.append_assoc]; rfl
  have e3 : ∀ x : String, x ++ "," ++ "C" ++ "G" ++ "_R" = x ++ ",CG_R" := by
    intro x; simp only [String.append_assoc]; rfl
  have e4 : ∀ x : String, x ++ "," ++ "C" ++ "T" ++ "_R" = x ++ ",CT_R" := by
    intro x; simp only [String.append_assoc]; rfl
  unfold zn_text zn_group spec_zn_text retained converted
  rw [h0, h1, h2, h3, g0, g1, g2, g3]
  simp only [← String.append_assoc]
  rw [e1, e2, e3, e4]

/-- C14: for a counted read that is kept in annotated mode (`print_in_tab = 0`)
the record handed on carries, appended to its auxiliary fields, the field of
tag `ZN` and type `Z` whose text is `CA_R<rA>C<cA>,CC_R<rC>C<cC>,CG_R<rG>C<cG>,
CT_R<rT>C<cT>` with the counts in decimal; this record is the single output of
the call; and for retained (3, 0, 10, 1) and converted (1, 2, 0, 0) the text is
`CA_R3C1,CC_R0C2,CG_R10C0,CT_R1C0`. -/
theorem C14_annotated_tag (rs : refcache_t) (conf : bsconv_conf_t) (bsstrand : Nat)
    (out : Bool) (b : bam1_t) (rpos qpos : Nat) (cnt : counts_t)
    (hf : skip_flags b.flag = false)
    (hw : count_walk rs b bsstrand = Except.ok (rpos, qpos, cnt))
    (hkeep : tofilter conf cnt = false) (hmode : conf.print_in_tab = 0) :
    bsconv_func rs conf bsstrand out b =
        Except.ok
          ⟨[if out then output_t.sam_write { b with aux := b.aux ++ [⟨"ZN", 'Z', spec_zn_text cnt⟩] }
            else output_t.sam_text { b with aux := b.aux ++ [⟨"ZN", 'Z', spec_zn_text cnt⟩] }],
            { b with aux := b.aux ++ [⟨"ZN", 'Z', spec_zn_text cnt⟩] }⟩ ∧
      spec_zn_text example_counts = "CA_R3C1,CC_R0C2,CG_R10C0,CT_R1C0" ∧
      zn_text example_counts = "CA_R3C1,CC_R0C2,CG_R10C0,CT_R1C0" := by
  refine ⟨?_, by decide, by decide⟩
  rw [bsconv_func_counted rs conf bsstrand out b rpos qpos cnt hf hw, if_neg (by simp [hkeep]),
    if_neg (by simp [hmode]), output_record_eq, zn_text_eq_spec]
  rfl

/-- Witness of C14: the read of scenario B under the defaults gets the field
`CA_R0C0,CC_R0C0,CG_R1C0,CT_R0C0`. -/
theorem C14_annotated_tag_witness :
    (skip_flags scenarioB_read.flag = false ∧
        count_walk scenario_ref scenarioB_read 0 =
          Except.ok (105, 4, incr_retn counts_zero 2) ∧
        tofilter main_bsconv_conf (incr_retn counts_zero 2) = false ∧
        main_bsconv_conf.print_in_tab = 0) ∧
      bsconv_func scenario_ref main_bsconv_conf 0 true scenarioB_read =
        Except.ok
          ⟨[if true then output_t.sam_write { scenarioB_read with
                aux := scenarioB_read.aux ++
                  [⟨"ZN", 'Z', spec_zn_text (incr_retn counts_zero 2)⟩] }
            else output_t.sam_text { scenarioB_read with
                aux := scenarioB_read.aux ++
                  [⟨"ZN", 'Z', spec_zn_text (incr_retn counts_zero 2)⟩] }],
            { scenarioB_read with
                aux := scenarioB_read.aux ++
                  [⟨"ZN", 'Z', spec_zn_text (incr_retn counts_zero 2)⟩] }⟩ ∧
      spec_zn_text (incr_retn counts_zero 2) = "CA_R0C0,CC_R0C0,CG_R1C0,CT_R0C0" :=
  ⟨⟨by decide, rfl, by decide, by decide⟩,
    (C14_annotated_tag scenario_ref main_bsconv_conf 0 true scenarioB_read 105 4
      (incr_retn counts_zero 2) (by decide) rfl (by decide) (by decide)).1,
    by decide⟩

/-! ## C19, C20: monotonicity of the filter, negative thresholds -/

/-- C19: under normal polarity, when the retained counts of the contexts A, C,
T of `c` are at most those of `c2` and every threshold of `t2` is at least as
loose as that of `t` (unset, or both set and not smaller), a table `c2` kept
under `t` gives a table `c` kept under `t2`. -/
theorem C19_filter_monotone (t t2 : bsconv_conf_t) (c c2 : counts_t)
    (hn : t.show_filtered = 0) (hn2 : t2.show_filtered = 0)
    (hA : retained c 'A' ≤ retained c2 'A') (hC : retained c 'C' ≤ retained c2 'C')
    (hT : retained c 'T' ≤ retained c2 'T')
    (lh : looser t.max_cph t2.max_cph) (la : looser t.max_cpa t2.max_cpa)
    (lc : looser t.max_cpc t2.max_cpc) (lt : looser t.max_cpt t2.max_cpt)
    (hkept : tofilter t c2 = false) :
    tofilter t2 c = false := by
  rw [tofilter_eq_spec, spec_shouldSuppress] at hkept ⊢
  have d1 : decide (t.show_filtered ≠ 0) = false := by simp [hn]
  have d2 : decide (t2.show_filtered ≠ 0) = false := by simp [hn2]
  rw [d1, Bool.false_xor, ← Bool.not_eq_true, spec_exceeds_iff] at hkept
  rw [d2, Bool.false_xor, ← Bool.not_eq_true, spec_exceeds_iff]
  unfold looser at lh la lc lt
  omega

/-- Witness of C19: the table with retained (2, 1, 7, 1) is kept under the
bounds `maxCpH = 5`, `maxCpA = 2`, `maxCpC = 2`, `maxCpT = 2` (it is suppressed
as soon as `maxCpA` is lowered to 1), and the table with the lower retained
counts (1, 1, 9, 0) for A, C, T is kept when `maxCpA` is raised to 3 and
`maxCpH`, `maxCpT` are removed. -/
theorem C19_filter_monotone_witness :
    ((⟨5, 2, 2, 2, 0, 0⟩ : bsconv_conf_t).show_filtered = 0 ∧
        (⟨-1, 3, 2, -1, 0, 0⟩ : bsconv_conf_t).show_filtered = 0 ∧
        retained lower_counts 'A' ≤ retained kept_counts 'A' ∧
        retained lower_counts 'C' ≤ retained kept_counts 'C' ∧
        retained lower_counts 'T' ≤ retained kept_counts 'T' ∧
        retained lower_counts 'A' < retained kept_counts 'A' ∧
        looser 5 (-1) ∧ looser 2 3 ∧ looser 2 2 ∧ looser 2 (-1) ∧
        tofilter ⟨5, 2, 2, 2, 0, 0⟩ kept_counts = false ∧
        tofilter ⟨5, 1, 2, 2, 0, 0⟩ kept_counts = true ∧
        tofilter ⟨3, 2, 2, 2, 0, 0⟩ kept_counts = true) ∧
      tofilter ⟨-1, 3, 2, -1, 0, 0⟩ lower_counts = false :=
  ⟨⟨rfl, rfl, by decide, by decide, by decide, by decide, by unfold looser; decide,
      by unfold looser; decide, by unfold looser; decide, by unfold looser; decide,
      by decide, by decide, by decide⟩,
    C19_filter_monotone ⟨5, 2, 2, 2, 0, 0⟩ ⟨-1, 3, 2, -1, 0, 0⟩ lower_counts kept_counts rfl rfl
      (by decide) (by decide) (by decide) (by unfold looser; decide) (by unfold looser; decide)
      (by unfold looser; decide) (by unfold looser; decide) (by decide)⟩

/-- C20: two configurations with the same flags whose thresholds are pairwise
equal or both negative give the same value of `tofilter` on every count table;
so a threshold given a negative value `n` by an option (`-m`, `-a`, `-c`, `-t`
with `atoi` returning `n`) decides as the default -1 does, and with all four
thresholds negative no table is suppressed under normal polarity, whatever the
retained counts. -/
theorem C20_negative_threshold_unset (conf conf2 : bsconv_conf_t) (cnt : counts_t)
    (hv : conf.show_filtered = conf2.show_filtered)
    (hh : same_bound conf.max_cph conf2.max_cph) (ha : same_bound conf.max_cpa conf2.max_cpa)
    (hc : same_bound conf.max_cpc conf2.max_cpc) (ht : same_bound conf.max_cpt conf2.max_cpt) :
    tofilter conf cnt = tofilter conf2 cnt ∧
      (∀ (o : Char) (n : Int), o ∈ ['m', 'a', 'c', 't'] → n < 0 →
        ∃ conf3, main_bsconv_option main_bsconv_conf o n = some conf3 ∧
          tofilter conf3 cnt = tofilter main_bsconv_conf cnt ∧ tofilter conf3 cnt = false) ∧
      (main_bsconv_option main_bsconv_conf 'm' (-5) =
        some { main_bsconv_conf with max_cph := -5 }) := by
  have key : ∀ (x y : bsconv_conf_t), x.show_filtered = y.show_filtered →
      same_bound x.max_cph y.max_cph → same_bound x.max_cpa y.max_cpa →
      same_bound x.max_cpc y.max_cpc → same_bound x.max_cpt y.max_cpt →
      tofilter x cnt = tofilter y cnt := by
    intro x y hv hh ha hc ht
    rw [tofilter_eq_spec, tofilter_eq_spec, spec_shouldSuppress, spec_shouldSuppress, hv]
    congr 1
    rw [Bool.eq_iff_iff, spec_exceeds_iff, spec_exceeds_iff]
    unfold same_bound at hh ha hc ht
    omega
  refine ⟨key conf conf2 hv hh ha hc ht, ?_, rfl⟩
  intro o n ho hn
  have hdef : tofilter main_bsconv_conf cnt = false := by
    rw [tofilter_unset main_bsconv_conf cnt (by decide)]
    decide
  simp only [List.mem_cons, List.mem_singleton, List.not_mem_nil, or_false] at ho
  rcases ho with rfl | rfl | rfl | rfl
  · refine ⟨{ main_bsconv_conf with max_cph := n }, rfl, ?_⟩
    have h := key { main_bsconv_conf with max_cph := n } main_bsconv_conf rfl
      (Or.inr ⟨hn, by decide⟩) (Or.inl rfl) (Or.inl rfl) (Or.inl rfl)
    exact ⟨h, h.trans hdef⟩
  · refine ⟨{ main_bsconv_conf with max_cpa := n }, rfl, ?_⟩
    have h := key { main_bsconv_conf with max_cpa := n } main_bsconv_conf rfl
      (Or.inl rfl) (Or.inr ⟨hn, by decide⟩) (Or.inl rfl) (Or.inl rfl)
    exact ⟨h, h.trans hdef⟩
  · refine ⟨{ main_bsconv_conf with max_cpc := n }, rfl, ?_⟩
    have h := key { main_bsconv_conf with max_cpc := n } main_bsconv_conf rfl
      (Or.inl rfl) (Or.inl rfl) (Or.inr ⟨hn, by decide⟩) (Or.inl rfl)
    exact ⟨h, h.trans hdef⟩
  · refine ⟨{ main_bsconv_conf with max_cpt := n }, rfl, ?_⟩
    have h := key { main_bsconv_conf with max_cpt := n } main_bsconv_conf rfl
      (Or.inl rfl) (Or.inl rfl) (Or.inl rfl) (Or.inr ⟨hn, by decide⟩)
    exact ⟨h, h.trans hdef⟩

/-- Witness of C20: with `maxCpH = -5` the table with `retn[A] = 1` is decided
as with the default -1, although 1 exceeds -5. -/
theorem C20_negative_threshold_unset_witness :
    ((({ main_bsconv_conf with max_cph := -5 } : bsconv_conf_t).show_filtered =
          main_bsconv_conf.show_filtered) ∧
        same_bound (-5) (-1) ∧ retained one_retained_A 'A' > -5) ∧
      tofilter { main_bsconv_conf with max_cph := -5 } one_retained_A =
        tofilter main_bsconv_conf one_retained_A :=
  ⟨⟨rfl, by unfold same_bound; decide, by decide⟩,
    (C20_negative_threshold_unset { main_bsconv_conf with max_cph := -5 } main_bsconv_conf
      one_retained_A rfl (Or.inr ⟨by decide, by decide⟩) (Or.inl rfl) (Or.inl rfl)
      (Or.inl rfl)).1⟩


/-! ## C18: the invariant of the count table -/

theorem table_le_four (c : Char) : nt256char_to_nt256int8_table c ≤ 4 := by
  unfold nt256char_to_nt256int8_table
  split_ifs <;> omega

theorem count_base_cases (rs : refcache_t) (b : bam1_t) (bsstrand : Nat) (cnt : counts_t)
    (p q : Nat) :
    count_base rs b bsstrand cnt p q = cnt ∨
      (strand_consistent rs bsstrand p ∧ ∃ i, i ≤ 4 ∧
        (count_base rs b bsstrand cnt p q = incr_retn cnt i ∨
          count_base rs b bsstrand cnt p q = incr_conv cnt i)) := by
  by_cases hsc : strand_consistent rs bsstrand p
  · unfold count_base
    simp only []
    split_ifs
    all_goals first
      | exact Or.inl rfl
      | exact Or.inr ⟨hsc, _, table_le_four _, Or.inl rfl⟩
      | exact Or.inr ⟨hsc, _, table_le_four _, Or.inr rfl⟩
  · exact Or.inl (count_base_not_consistent rs b bsstrand cnt p q hsc)

theorem slots_sum_incr_retn (cnt : counts_t) (i : Nat) (hi : i ≤ 4) :
    slots_sum (incr_retn cnt i) = slots_sum cnt + 1 := by
  unfold slots_sum incr_retn
  interval_cases i <;> simp [Function.update] <;> ring

theorem slots_sum_incr_conv (cnt : counts_t) (i : Nat) (hi : i ≤ 4) :
    slots_sum (incr_conv cnt i) = slots_sum cnt + 1 := by
  unfold slots_sum incr_conv
  interval_cases i <;> simp [Function.update] <;> ring

theorem slots_sum_count_base (rs : refcache_t) (b : bam1_t) (bsstrand : Nat) (cnt : counts_t)
    (p q : Nat) :
    slots_sum (count_base rs b bsstrand cnt p q) ≤
      slots_sum cnt + if strand_consistent rs bsstrand p then 1 else 0 := by
  rcases count_base_cases rs b bsstrand cnt p q with h | ⟨hsc, i, hi, h | h⟩
  · rw [h]
    split_ifs <;> omega
  · rw [h, slots_sum_incr_retn cnt i hi, if_pos hsc]
  · rw [h, slots_sum_incr_conv cnt i hi, if_pos hsc]

theorem slots_sum_foldl (rs : refcache_t) (b : bam1_t) (bsstrand : Nat)
    (l : List (Nat × Nat)) (cnt : counts_t) :
    slots_sum (l.foldl (fun c pq => count_base rs b bsstrand c pq.1 pq.2) cnt) ≤
      slots_sum cnt + (l.countP (fun pq => decide (strand_consistent rs bsstrand pq.1)) : Nat) := by
  induction l generalizing cnt with
  | nil => simp
  | cons x xs ih =>
    rw [List.foldl_cons, List.countP_cons]
    have h1 := ih (count_base rs b bsstrand cnt x.1 x.2)
    have h2 := slots_sum_count_base rs b bsstrand cnt x.1 x.2
    by_cases hsc : strand_consistent rs bsstrand x.1
    · rw [if_pos hsc] at h2
      simp only [hsc, decide_True, if_true, Nat.cast_add, Nat.cast_one]
      omega
    · rw [if_neg hsc] at h2
      simp only [hsc, decide_False, Bool.false_eq_true, if_false, Nat.add_zero]
      omega

theorem record_length (cigar : List Nat) (rpos qpos rpos2 qpos2 : Nat)
    (pairs : List (Nat × Nat))
    (h : cigar_loop (fun a p q => a ++ [(p, q)]) cigar rpos qpos [] =
      Except.ok (rpos2, qpos2, pairs)) :
    pairs.length = match_len cigar := by
  induction cigar generalizing rpos qpos rpos2 qpos2 pairs with
  | nil =>
    simp only [cigar_loop] at h
    injection h with h
    injection h with _ h
    injection h with _ h
    subst h
    rfl
  | cons c rest ih =>
    by_cases h1 : bam_cigar_op c = BAM_CMATCH
    · rw [cigar_loop_match _ _ _ h1,
        foldl_record_pair (fun j => ((rpos + j) % 2 ^ 32, (qpos + j) % 2 ^ 32)),
        cigar_loop_record_acc rest _ _ ([] ++ _)] at h
      cases hr : cigar_loop (fun a p q => a ++ [(p, q)]) rest
          ((rpos + bam_cigar_oplen c) % 2 ^ 32) ((qpos + bam_cigar_oplen c) % 2 ^ 32) [] with
      | error op => rw [hr] at h; cases h
      | ok v =>
        obtain ⟨r3, q3, l⟩ := v
        rw [hr] at h
        simp only [Except.map] at h
        injection h with h
        injection h with _ h
        injection h with _ h
        subst h
        have hl := ih _ _ _ _ l hr
        simp [match_len, List.filter_cons, h1, hl]
    · have hm : match_len (c :: rest) = match_len rest := by
        simp [match_len, List.filter_cons, h1]
      rw [hm]
      by_cases h2 : bam_cigar_op c = BAM_CINS
      · rw [cigar_loop_ins _ _ _ h2] at h
        exact ih _ _ _ _ pairs h
      · by_cases h3 : bam_cigar_op c = BAM_CDEL
        · rw [cigar_loop_del _ _ _ h3] at h
          exact ih _ _ _ _ pairs h
        · by_cases h4 : bam_cigar_op c = BAM_CSOFT_CLIP ∨ bam_cigar_op c = BAM_CHARD_CLIP
          · rw [cigar_loop_clip _ _ _ h4] at h
            exact ih _ _ _ _ pairs h
          · simp only [cigar_loop, if_neg h1, if_neg h2, if_neg h3, if_neg h4] at h
            cases h

/-- C18: one run of the loop body either leaves both arrays as they are or
executes exactly one of `retn[i]++`, `conv[i]++` for one index `i`, and the
latter only at a strand-consistent position; an Insertion, Deletion or Clip
operation hands the counters on as they are; and for a supported operation
list the walk returns counters that are all non-negative, with the sum of the
eight counts at most the sum of all slots, which is at most the number of
aligned pairs at a strand-consistent reference base, which is at most the
number of aligned pairs, the sum of the MatchOrMismatch lengths. -/
theorem C18_count_table_invariant (rs : refcache_t) (b : bam1_t) (bsstrand : Nat)
    (hsup : ∀ c ∈ b.cigar, supported_op (bam_cigar_op c)) :
    (∀ (cnt : counts_t) (p q : Nat),
      count_base rs b bsstrand cnt p q = cnt ∨
        (strand_consistent rs bsstrand p ∧ ∃ i, i ≤ 4 ∧
          (count_base rs b bsstrand cnt p q = incr_retn cnt i ∨
            count_base rs b bsstrand cnt p q = incr_conv cnt i))) ∧
    (∀ (c : Nat) (rest : List Nat) (rpos qpos : Nat) (cnt : counts_t),
      bam_cigar_op c = BAM_CINS ∨ bam_cigar_op c = BAM_CDEL ∨
        bam_cigar_op c = BAM_CSOFT_CLIP ∨ bam_cigar_op c = BAM_CHARD_CLIP →
      ∃ rpos2 qpos2, cigar_loop (count_base rs b bsstrand) (c :: rest) rpos qpos cnt =
        cigar_loop (count_base rs b bsstrand) rest rpos2 qpos2 cnt) ∧
    (∃ rpos qpos cnt pairs,
      count_walk rs b bsstrand = Except.ok (rpos, qpos, cnt) ∧
      aligned_pairs b = Except.ok (rpos, qpos, pairs) ∧
      (∀ i, 0 ≤ cnt.retn i ∧ 0 ≤ cnt.conv i) ∧
      counts_sum cnt ≤ slots_sum cnt ∧
      slots_sum cnt ≤
        (pairs.countP (fun pq => decide (strand_consistent rs bsstrand pq.1)) : Nat) ∧
      pairs.countP (fun pq => decide (strand_consistent rs bsstrand pq.1)) ≤ pairs.length ∧
      pairs.length = match_len b.cigar) := by
  refine ⟨fun cnt p q => count_base_cases rs b bsstrand cnt p q, ?_, ?_⟩
  · intro c rest rpos qpos cnt hc
    rcases hc with hc | hc | hc | hc
    · exact ⟨_, _, cigar_loop_ins _ _ _ hc _ _ _⟩
    · exact ⟨_, _, cigar_loop_del _ _ _ hc _ _ _⟩
    · exact ⟨_, _, cigar_loop_clip _ _ _ (Or.inl hc) _ _ _⟩
    · exact ⟨_, _, cigar_loop_clip _ _ _ (Or.inr hc) _ _ _⟩
  · obtain ⟨rpos, qpos, pairs, hp, hw⟩ := count_walk_supported rs b bsstrand hsup
    have hnn : ∀ i, 0 ≤ (pairs.foldl (fun c pq => count_base rs b bsstrand c pq.1 pq.2)
          counts_zero).retn i ∧
        0 ≤ (pairs.foldl (fun c pq => count_base rs b bsstrand c pq.1 pq.2)
          counts_zero).conv i := by
      intro i
      rw [foldl_count_base_retn, foldl_count_base_conv]
      simp only [counts_zero, zero_add]
      exact ⟨Int.ofNat_nonneg _, Int.ofNat_nonneg _⟩
    refine ⟨rpos, qpos, _, pairs, hw, hp, hnn, ?_, ?_, List.countP_le_length _,
      record_length b.cigar _ _ _ _ pairs hp⟩
    · have h4 := hnn 4
      unfold counts_sum slots_sum retained converted
      have e0 : nt256char_to_nt256int8_table 'A' = 0 := by decide
      have e1 : nt256char_to_nt256int8_table 'C' = 1 := by decide
      have e2 : nt256char_to_nt256int8_table 'G' = 2 := by decide
      have e3 : nt256char_to_nt256int8_table 'T' = 3 := by decide
      rw [e0, e1, e2, e3]
      omega
    · have h := slots_sum_foldl rs b bsstrand pairs counts_zero
      have hz : slots_sum counts_zero = 0 := by decide
      rw [hz, zero_add] at h
      exact h

/-- Witness of C18: the read of scenario A has four aligned pairs, one of them
at a strand-consistent base, and one count in all. -/
theorem C18_count_table_invariant_witness :
    (∀ c ∈ scenarioA_read.cigar, supported_op (bam_cigar_op c)) ∧
      (∀ (cnt : counts_t) (p q : Nat),
        count_base scenario_ref scenarioA_read 0 cnt p q = cnt ∨
          (strand_consistent scenario_ref 0 p ∧ ∃ i, i ≤ 4 ∧
            (count_base scenario_ref scenarioA_read 0 cnt p q = incr_retn cnt i ∨
              count_base scenario_ref scenarioA_read 0 cnt p q = incr_conv cnt i))) ∧
      match_len scenarioA_read.cigar = 4 ∧
      ∃ rpos qpos cnt, count_walk scenario_ref scenarioA_read 0 = Except.ok (rpos, qpos, cnt) ∧
        counts_sum cnt = 1 :=
  ⟨by decide,
    (C18_count_table_invariant scenario_ref scenarioA_read 0 (by decide)).1,
    by decide, ⟨_, _, _, rfl, by decide⟩⟩


/-! ## C15: the tabular line and its reading -/

theorem digitChar_spec (k : Nat) (hk : k < 10) :
    (Nat.digitChar k).isDigit = true ∧ (Nat.digitChar k).toNat - 48 = k := by
  interval_cases k <;> exact ⟨rfl, rfl⟩

theorem toDigitsCore_all_digits (fuel : Nat) :
    ∀ (n : Nat) (ds : List Char), (∀ c ∈ ds, c.isDigit = true) →
      ∀ c ∈ Nat.toDigitsCore 10 fuel n ds, c.isDigit = true := by
  induction fuel with
  | zero => intro n ds h; simpa [Nat.toDigitsCore] using h
  | succ f ih =>
    intro n ds h
    have hd : ∀ c ∈ Nat.digitChar (n % 10) :: ds, c.isDigit = true := by
      intro c hc
      rcases List.mem_cons.mp hc with rfl | hc
      · exact (digitChar_spec (n % 10) (Nat.mod_lt _ (by decide))).1
      · exact h c hc
    simp only [Nat.toDigitsCore]
    split_ifs
    · exact hd
    · exact ih _ _ hd

theorem toDigitsCore_ne_nil (fuel : Nat) :
    ∀ (n : Nat) (ds : List Char), ds ≠ [] → Nat.toDigitsCore 10 fuel n ds ≠ [] := by
  induction fuel with
  | zero => intro n ds h; simpa [Nat.toDigitsCore] using h
  | succ f ih =>
    intro n ds _
    simp only [Nat.toDigitsCore]
    split_ifs
    · exact List.cons_ne_nil _ _
    · exact ih _ _ (List.cons_ne_nil _ _)

theorem toDigitsCore_value (fuel : Nat) :
    ∀ (n : Nat) (ds : List Char), n < fuel →
      (Nat.toDigitsCore 10 fuel n ds).foldl (fun a c => 10 * a + (c.toNat - 48)) 0 =
        ds.foldl (fun a c => 10 * a + (c.toNat - 48)) n := by
  induction fuel with
  | zero => intro n ds h; omega
  | succ f ih =>
    intro n ds h
    have hv := (digitChar_spec (n % 10) (Nat.mod_lt _ (by decide))).2
    simp only [Nat.toDigitsCore]
    split_ifs with h0
    · rw [List.foldl_cons, hv]
      have : n % 10 = n := by omega
      simp [this]
    · rw [ih (n / 10) _ (by omega), List.foldl_cons, hv]
      have : 10 * (n / 10) + n % 10 = n := Nat.div_add_mod n 10
      rw [this]

theorem toDigits_all_digits (n : Nat) : ∀ c ∈ Nat.toDigits 10 n, c.isDigit = true :=
  toDigitsCore_all_digits (n + 1) n [] (by simp)

theorem toDigits_ne_nil (n : Nat) : Nat.toDigits 10 n ≠ [] := by
  unfold Nat.toDigits
  simp only [Nat.toDigitsCore]
  split_ifs
  · exact List.cons_ne_nil _ _
  · exact toDigitsCore_ne_nil _ _ _ (List.cons_ne_nil _ _)

theorem parse_nat_toDigits (n : Nat) : parse_nat (Nat.toDigits 10 n) = some n := by
  unfold parse_nat
  have h1 : (Nat.toDigits 10 n).all Char.isDigit = true := by
    rw [List.all_eq_true]
    exact toDigits_all_digits n
  rw [if_pos ⟨toDigits_ne_nil n, h1⟩]
  have h2 := toDigitsCore_value (n + 1) n [] (by omega)
  simp only [List.foldl_nil] at h2
  unfold Nat.toDigits
  rw [h2]

theorem fmt_d_data (n : Int) :
    (fmt_d n).data =
      if 0 ≤ n then Nat.toDigits 10 n.toNat else '-' :: Nat.toDigits 10 (-n).toNat := by
  cases n with
  | ofNat m =>
    have : (0 : Int) ≤ Int.ofNat m := Int.ofNat_nonneg m
    rw [if_pos this]
    rfl
  | negSucc m =>
    have : ¬ (0 : Int) ≤ Int.negSucc m := by
      intro h; exact absurd h (by simp [Int.negSucc_lt_zero])
    rw [if_neg this]
    rfl

theorem fmt_d_no_sep (n : Int) : ∀ c ∈ (fmt_d n).data, c ≠ '\t' ∧ c ≠ '\n' := by
  intro c hc
  have hdig : ∀ m : Nat, ∀ c ∈ Nat.toDigits 10 m, c ≠ '\t' ∧ c ≠ '\n' := by
    intro m c hc
    have h := toDigits_all_digits m c hc
    constructor <;> (rintro rfl; exact absurd h (by decide))
  rw [fmt_d_data] at hc
  split_ifs at hc
  · exact hdig _ c hc
  · rcases List.mem_cons.mp hc with rfl | hc
    · exact ⟨by decide, by decide⟩
    · exact hdig _ c hc

theorem parse_int_fmt_d (n : Int) : parse_int (fmt_d n).data = some n := by
  unfold parse_int
  rw [fmt_d_data]
  split_ifs with h0 h1 h1
  · exfalso
    have hne := toDigits_ne_nil n.toNat
    cases hl : Nat.toDigits 10 n.toNat with
    | nil => exact hne hl
    | cons c cs =>
      rw [hl] at h1
      simp only [List.head?_cons, Option.some.injEq] at h1
      have hc := toDigits_all_digits n.toNat c (by rw [hl]; exact List.mem_cons_self _ _)
      rw [h1] at hc
      exact absurd hc (by decide)
  · rw [parse_nat_toDigits]
    simp only [Option.map_some']
    congr 1
    exact Int.toNat_of_nonneg h0
  · rw [List.tail_cons, parse_nat_toDigits]
    simp only [Option.map_some']
    congr 1
    have : 0 ≤ -n := by omega
    rw [Int.toNat_of_nonneg this]
    omega
  · exfalso
    exact h1 rfl

theorem tab_line_data (cnt : counts_t) (qname : String) :
    (tab_line cnt qname).data =
      ['\t'].intercalate
        [(fmt_d (cnt.retn 0)).data, (fmt_d (cnt.conv 0)).data, (fmt_d (cnt.retn 1)).data,
          (fmt_d (cnt.conv 1)).data, (fmt_d (cnt.retn 2)).data, (fmt_d (cnt.conv 2)).data,
          (fmt_d (cnt.retn 3)).data, (fmt_d (cnt.conv 3)).data, qname.data] ++ ['\n'] := by
  have ht : ("\t" : String).data = ['\t'] := rfl
  have hn : ("\n" : String).data = ['\n'] := rfl
  simp only [tab_line, String.data_append, ht, hn, List.intercalate, List.intersperse,
    List.flatten_cons, List.flatten_nil, List.append_assoc, List.cons_append, List.nil_append,
    List.append_nil]

theorem line_fields_tab_line (cnt : counts_t) (qname : String)
    (hname : '\t' ∉ qname.data ∧ '\n' ∉ qname.data) :
    line_fields (tab_line cnt qname) =
      [(fmt_d (cnt.retn 0)).data, (fmt_d (cnt.conv 0)).data, (fmt_d (cnt.retn 1)).data,
        (fmt_d (cnt.conv 1)).data, (fmt_d (cnt.retn 2)).data, (fmt_d (cnt.conv 2)).data,
        (fmt_d (cnt.retn 3)).data, (fmt_d (cnt.conv 3)).data, qname.data] := by
  have hf : ∀ l ∈ [(fmt_d (cnt.retn 0)).data, (fmt_d (cnt.conv 0)).data,
      (fmt_d (cnt.retn 1)).data, (fmt_d (cnt.conv 1)).data, (fmt_d (cnt.retn 2)).data,
      (fmt_d (cnt.conv 2)).data, (fmt_d (cnt.retn 3)).data, (fmt_d (cnt.conv 3)).data,
      qname.data], '\t' ∉ l ∧ '\n' ∉ l := by
    intro l hl
    simp only [List.mem_cons, List.mem_singleton, List.not_mem_nil, or_false] at hl
    have hd : ∀ n : Int, '\t' ∉ (fmt_d n).data ∧ '\n' ∉ (fmt_d n).data :=
      fun n => ⟨fun h => (fmt_d_no_sep n _ h).1 rfl, fun h => (fmt_d_no_sep n _ h).2 rfl⟩
    rcases hl with rfl | rfl | rfl | rfl | rfl | rfl | rfl | rfl | rfl
    · exact hd _
    · exact hd _
    · exact hd _
    · exact hd _
    · exact hd _
    · exact hd _
    · exact hd _
    · exact hd _
    · exact hname
  have hbody : ∀ c ∈ ['\t'].intercalate
      [(fmt_d (cnt.retn 0)).data, (fmt_d (cnt.conv 0)).data, (fmt_d (cnt.retn 1)).data,
        (fmt_d (cnt.conv 1)).data, (fmt_d (cnt.retn 2)).data, (fmt_d (cnt.conv 2)).data,
        (fmt_d (cnt.retn 3)).data, (fmt_d (cnt.conv 3)).data, qname.data],
      (c != '\n') = true := by
    intro c hc
    simp only [bne_iff_ne, ne_eq]
    rintro rfl
    simp only [List.intercalate, List.intersperse, List.flatten_cons, List.flatten_nil,
      List.mem_append, List.mem_cons, List.mem_singleton, List.not_mem_nil, or_false,
      List.append_nil] at hc
    have hd : ∀ n : Int, '\n' ∉ (fmt_d n).data := fun n h => (fmt_d_no_sep n _ h).2 rfl
    have hne : ('\n' : Char) ≠ '\t' := by decide
    rcases hc with h | h | h | h | h | h | h | h | h | h | h | h | h | h | h | h | h
    all_goals first
      | exact hd _ h
      | exact hne h
      | exact hname.2 h
  unfold line_fields
  rw [tab_line_data, List.takeWhile_append_of_pos hbody]
  have hnl : List.takeWhile (fun c => c != '\n') ['\n'] = [] := by decide
  rw [hnl, List.append_nil]
  exact List.splitOn_intercalate _ '\t' (fun l hl => (hf l hl).1) (List.cons_ne_nil _ _)

theorem parse_tab_line_tab_line (cnt : counts_t) (qname : String)
    (hname : '\t' ∉ qname.data ∧ '\n' ∉ qname.data) :
    parse_tab_line (tab_line cnt qname) =
      some ([cnt.retn 0, cnt.conv 0, cnt.retn 1, cnt.conv 1, cnt.retn 2, cnt.conv 2,
        cnt.retn 3, cnt.conv 3], qname) := by
  unfold parse_tab_line
  rw [line_fields_tab_line cnt qname hname]
  simp only [parse_int_fmt_d, Option.pure_def, Option.bind_eq_bind, Option.some_bind]

/-- C15: for a read name without tab and newline, the line printed in tabular
mode, taken up to its newline and split at the tabs, has exactly nine fields:
the decimal renderings of `retained[A]`, `converted[A]`, `retained[C]`,
`converted[C]`, `retained[G]`, `converted[G]`, `retained[T]`, `converted[T]`
and the read name; reading the line back gives these eight integers and the
name; and two inputs that print the same line have the same eight counts and
the same name. -/
theorem C15_tabular_round_trip (cnt : counts_t) (qname : String)
    (hname : '\t' ∉ qname.data ∧ '\n' ∉ qname.data) :
    line_fields (tab_line cnt qname) =
        [(fmt_d (retained cnt 'A')).data, (fmt_d (converted cnt 'A')).data,
          (fmt_d (retained cnt 'C')).data, (fmt_d (converted cnt 'C')).data,
          (fmt_d (retained cnt 'G')).data, (fmt_d (converted cnt 'G')).data,
          (fmt_d (retained cnt 'T')).data, (fmt_d (converted cnt 'T')).data, qname.data] ∧
      (line_fields (tab_line cnt qname)).length = 9 ∧
      parse_tab_line (tab_line cnt qname) =
        some ([retained cnt 'A', converted cnt 'A', retained cnt 'C', converted cnt 'C',
          retained cnt 'G', converted cnt 'G', retained cnt 'T', converted cnt 'T'], qname) ∧
      (∀ (cnt2 : counts_t) (qname2 : String), '\t' ∉ qname2.data ∧ '\n' ∉ qname2.data →
        tab_line cnt qname = tab_line cnt2 qname2 →
        [retained cnt 'A', converted cnt 'A', retained cnt 'C', converted cnt 'C',
            retained cnt 'G', converted cnt 'G', retained cnt 'T', converted cnt 'T'] =
          [retained cnt2 'A', converted cnt2 'A', retained cnt2 'C', converted cnt2 'C',
            retained cnt2 'G', converted cnt2 'G', retained cnt2 'T', converted cnt2 'T'] ∧
          qname = qname2) := by
  have e0 : nt256char_to_nt256int8_table 'A' = 0 := by decide
  have e1 : nt256char_to_nt256int8_table 'C' = 1 := by decide
  have e2 : nt256char_to_nt256int8_table 'G' = 2 := by decide
  have e3 : nt256char_to_nt256int8_table 'T' = 3 := by decide
  have hr : ∀ c : counts_t, retained c 'A' = c.retn 0 ∧ retained c 'C' = c.retn 1 ∧
      retained c 'G' = c.retn 2 ∧ retained c 'T' = c.retn 3 ∧ converted c 'A' = c.conv 0 ∧
      converted c 'C' = c.conv 1 ∧ converted c 'G' = c.conv 2 ∧ converted c 'T' = c.conv 3 := by
    intro c
    unfold retained converted
    rw [e0, e1, e2, e3]
    exact ⟨rfl, rfl, rfl, rfl, rfl, rfl, rfl, rfl⟩
  obtain ⟨a0, a1, a2, a3, b0, b1, b2, b3⟩ := hr cnt
  rw [a0, a1, a2, a3, b0, b1, b2, b3]
  have hl := line_fields_tab_line cnt qname hname
  refine ⟨hl, by rw [hl]; rfl, parse_tab_line_tab_line cnt qname hname, ?_⟩
  intro cnt2 qname2 hname2 heq
  obtain ⟨c0, c1, c2, c3, d0, d1, d2, d3⟩ := hr cnt2
  rw [c0, c1, c2, c3, d0, d1, d2, d3]
  have h1 := parse_tab_line_tab_line cnt qname hname
  have h2 := parse_tab_line_tab_line cnt2 qname2 hname2
  rw [heq, h2] at h1
  injection h1 with h1
  injection h1 with h3 h4
  exact ⟨h3.symm, h4.symm⟩

/-- Witness of C15: the line of the example counts for the read name `r1`. -/
theorem C15_tabular_round_trip_witness :
    ('\t' ∉ ("r1" : String).data ∧ '\n' ∉ ("r1" : String).data) ∧
      tab_line example_counts "r1" = "3\t1\t0\t2\t10\t0\t1\t0\tr1\n" ∧
      parse_tab_line (tab_line example_counts "r1") =
        some ([retained example_counts 'A', converted example_counts 'A',
          retained example_counts 'C', converted example_counts 'C',
          retained example_counts 'G', converted example_counts 'G',
          retained example_counts 'T', converted example_counts 'T'], "r1") :=
  ⟨by decide, by decide,
    (C15_tabular_round_trip example_counts "r1" (by decide)).2.2.1⟩


/-! ## C17: the two output modes -/

theorem tab_line_eq_spec (cnt : counts_t) (qname : String) :
    tab_line cnt qname = spec_tab_line cnt qname := by
  have e0 : nt256char_to_nt256int8_table 'A' = 0 := by decide
  have e1 : nt256char_to_nt256int8_table 'C' = 1 := by decide
  have e2 : nt256char_to_nt256int8_table 'G' = 2 := by decide
  have e3 : nt256char_to_nt256int8_table 'T' = 3 := by decide
  unfold tab_line spec_tab_line retained converted
  rw [e0, e1, e2, e3]
  simp only [String.intercalate, String.intercalate.go]

theorem tab_line_one_newline (cnt : counts_t) (qname : String) (hname : '\n' ∉ qname.data) :
    (tab_line cnt qname).data.count '\n' = 1 ∧
      (tab_line cnt qname).data.getLast? = some '\n' := by
  have hbody : '\n' ∉ ['\t'].intercalate
      [(fmt_d (cnt.retn 0)).data, (fmt_d (cnt.conv 0)).data, (fmt_d (cnt.retn 1)).data,
        (fmt_d (cnt.conv 1)).data, (fmt_d (cnt.retn 2)).data, (fmt_d (cnt.conv 2)).data,
        (fmt_d (cnt.retn 3)).data, (fmt_d (cnt.conv 3)).data, qname.data] := by
    intro hc
    simp only [List.intercalate, List.intersperse, List.flatten_cons, List.flatten_nil,
      List.mem_append, List.mem_cons, List.mem_singleton, List.not_mem_nil, or_false,
      List.append_nil] at hc
    have hd : ∀ n : Int, '\n' ∉ (fmt_d n).data := fun n h => (fmt_d_no_sep n _ h).2 rfl
    have hne : ('\n' : Char) ≠ '\t' := by decide
    rcases hc with h | h | h | h | h | h | h | h | h | h | h | h | h | h | h | h | h
    all_goals first
      | exact hd _ h
      | exact hne h
      | exact hname h
  rw [tab_line_data]
  constructor
  · rw [List.count_append, List.count_eq_zero.mpr hbody]
    rfl
  · rw [List.getLast?_append]
    rfl

/-- C17: for a counted read that is kept (`tofilter` false), in tabular mode
(`print_in_tab ≠ 0`) the only output is one printed text, the nine tab-joined
fields `rA cA rC cC rG cG rT cT name` ended by a newline, which for a name
without newline is a single line (one newline, at its end), and the record is
left as it was and is not written; in annotated mode (`print_in_tab = 0`)
nothing is printed and the only output is one record, which is the input
record with the field `ZN` of type `Z` and text
`CA_R..C..,CC_R..C..,CG_R..C..,CT_R..C..` appended to its auxiliary fields and
nothing else changed. -/
theorem C17_output_modes (rs : refcache_t) (conf : bsconv_conf_t) (bsstrand : Nat)
    (out : Bool) (b : bam1_t) (rpos qpos : Nat) (cnt : counts_t)
    (hf : skip_flags b.flag = false)
    (hw : count_walk rs b bsstrand = Except.ok (rpos, qpos, cnt))
    (hkeep : tofilter conf cnt = false) :
    (conf.print_in_tab ≠ 0 →
      bsconv_func rs conf bsstrand out b =
          Except.ok ⟨[output_t.text (spec_tab_line cnt b.qname)], b⟩ ∧
        ('\n' ∉ b.qname.data →
          (spec_tab_line cnt b.qname).data.count '\n' = 1 ∧
            (spec_tab_line cnt b.qname).data.getLast? = some '\n')) ∧
    (conf.print_in_tab = 0 →
      ∃ b2, bsconv_func rs conf bsstrand out b =
          Except.ok ⟨[if out then output_t.sam_write b2 else output_t.sam_text b2], b2⟩ ∧
        b2.aux = b.aux ++ [⟨"ZN", 'Z', spec_zn_text cnt⟩] ∧
        b2.flag = b.flag ∧ b2.pos = b.pos ∧ b2.cigar = b.cigar ∧ b2.seq = b.seq ∧
        b2.qname = b.qname) := by
  have hc := bsconv_func_counted rs conf bsstrand out b rpos qpos cnt hf hw
  rw [if_neg (by simp [hkeep])] at hc
  constructor
  · intro hp
    rw [if_pos hp, tab_line_eq_spec] at hc
    refine ⟨hc, fun hname => ?_⟩
    rw [← tab_line_eq_spec]
    exact tab_line_one_newline cnt b.qname hname
  · intro hp
    rw [if_neg (by simp [hp]), output_record_eq, zn_text_eq_spec] at hc
    exact ⟨_, hc, rfl, rfl, rfl, rfl, rfl, rfl⟩

/-- Witness of C17 on the read of scenario B, counted to `retn[G] = 1`: after
`-b` the call prints the line `0 0 0 0 1 0 0 0 B` (tab-separated) and writes
nothing; under the defaults, with an output file, it prints nothing and writes
the record once with the field `CA_R0C0,CC_R0C0,CG_R1C0,CT_R0C0`. -/
theorem C17_output_modes_witness :
    (skip_flags scenarioB_read.flag = false ∧
        count_walk scenario_ref scenarioB_read 0 =
          Except.ok (105, 4, incr_retn counts_zero 2) ∧
        tofilter tab_conf (incr_retn counts_zero 2) = false ∧
        tofilter main_bsconv_conf (incr_retn counts_zero 2) = false ∧
        tab_conf.print_in_tab ≠ 0 ∧ main_bsconv_conf.print_in_tab = 0) ∧
      (bsconv_func scenario_ref tab_conf 0 true scenarioB_read =
          Except.ok ⟨[output_t.text
            (spec_tab_line (incr_retn counts_zero 2) scenarioB_read.qname)], scenarioB_read⟩ ∧
        spec_tab_line (incr_retn counts_zero 2) scenarioB_read.qname =
          "0\t0\t0\t0\t1\t0\t0\t0\tB\n") ∧
      (∃ b2, bsconv_func scenario_ref main_bsconv_conf 0 true scenarioB_read =
          Except.ok ⟨[if true then output_t.sam_write b2 else output_t.sam_text b2], b2⟩ ∧
        b2.aux = scenarioB_read.aux ++
          [⟨"ZN", 'Z', spec_zn_text (incr_retn counts_zero 2)⟩] ∧
        b2.flag = scenarioB_read.flag ∧ b2.pos = scenarioB_read.pos ∧
        b2.cigar = scenarioB_read.cigar ∧ b2.seq = scenarioB_read.seq ∧
        b2.qname = scenarioB_read.qname) ∧
      spec_zn_text (incr_retn counts_zero 2) = "CA_R0C0,CC_R0C0,CG_R1C0,CT_R0C0" :=
  ⟨⟨by decide, rfl, by decide, by decide, by decide, by decide⟩,
    ⟨((C17_output_modes scenario_ref tab_conf 0 true scenarioB_read 105 4
      (incr_retn counts_zero 2) (by decide) rfl (by decide)).1 (by decide)).1, by decide⟩,
    (C17_output_modes scenario_ref main_bsconv_conf 0 true scenarioB_read 105 4
      (incr_retn counts_zero 2) (by decide) rfl (by decide)).2 (by decide),
    by decide⟩

end Bsconv
